import Mathlib

/-!
Verification development for the omnigraph-agent bridge subsystem.

The definitions below are a shallow embedding of the Python sources:

* `src/omnigraph_agent/bridge/linkset_builder.py`
  (`LinksetBuilder.normalize_join_value`, `_find_best_matching_predicate`,
  `query_source_nodes`, `query_target_nodes`, `build_linkset`),
* `src/omnigraph_agent/bridge/semantic_mappings.py`
  (`get_category`, `are_semantically_related` and the static tables),
* `src/omnigraph_agent/bridge/graph_registry.py`
  (`find_pairs_with_shared_join_keys`, per-pair key computation),
* `src/omnigraph_agent/bridge/batch_bridge_generator.py`
  (`generate_all_linksets`, per-key loop).

Modelling conventions:

* Python strings are modelled as `String` / `List Char`; `re.search` over the
  literal patterns used by the code (a join-key token interpolated into
  `r"{tok}[:_](\d+)"`, `r"{tok}[:_]?(\d+)"`, `r"/taxonomy/(\d+)"`) is modelled
  by explicit leftmost-match scanners over `List Char`, with the interpolated
  token treated as a literal (all join-key tokens in the repository are
  alphanumeric, so this is exact for them).
* `str.strip`, `str.lower`, `str.upper`, `str.startswith`, `str.split(':', 1)`
  and `in` are modelled by the corresponding ASCII list functions.
* The remote SPARQL collaborator is external (spec section 6): a query is
  modelled by its response, `Except String (List (String × String))`, an error
  modelling a raised exception (`SPARQLWrapper` errors / timeouts).  Python
  exception propagation is modelled by `Except`; a `try/except/continue` block
  is modelled by discarding `.error` results.
* `rdflib.Graph` is a set of triples; it is modelled as a duplicate-free
  `List RTriple` built by `addT`, which inserts a triple only if absent.
* Python `float` confidence values are only stored, never computed with, so
  they are modelled as `Rat`.
-/

/-! ## Character-list utilities (models of the Python string operations) -/

/-- `':'` or `'_'`, the delimiter class `[:_]` of the identifier regexes. -/
def isDelim (c : Char) : Bool := c == ':' || c == '_'

/-- Drop a literal leading pattern: `dropPfx? a s = some r` iff `s = a ++ r`. -/
def dropPfx? : List Char → List Char → Option (List Char)
  | [], s => some s
  | _ :: _, [] => none
  | a :: as, b :: bs => if a = b then dropPfx? as bs else none

/-- `s` begins with the literal `a`. Models `str.startswith`. -/
def isPfxB (a s : List Char) : Bool := (dropPfx? a s).isSome

/-- The greedy nonempty digit run at the head of `t` (the `(\d+)` group),
or `none` if `t` does not start with a digit. -/
def digitsOrNone (t : List Char) : Option (List Char) :=
  if t.takeWhile Char.isDigit = [] then none else some (t.takeWhile Char.isDigit)

/-- Match `tok[:_](\d+)` at the head of `s`; returns the digit group. -/
def matchDD (tok s : List Char) : Option (List Char) :=
  match dropPfx? tok s with
  | some (c :: t) => if isDelim c then digitsOrNone t else none
  | _ => none

/-- Leftmost match of `tok[:_](\d+)` in `s` (models `re.search`). -/
def searchDD (tok : List Char) : List Char → Option (List Char)
  | [] => none
  | c :: t =>
    match matchDD tok (c :: t) with
    | some ds => some ds
    | none => searchDD tok t

/-- Match `tok[:_]?(\d+)` at the head of `s`: the optional delimiter is
consumed if a digit follows it, otherwise the digits must follow directly. -/
def matchOptDD (tok s : List Char) : Option (List Char) :=
  match dropPfx? tok s with
  | some (c :: t) => if isDelim c then digitsOrNone t else digitsOrNone (c :: t)
  | _ => none

/-- Leftmost match of `tok[:_]?(\d+)` in `s`. -/
def searchOptDD (tok : List Char) : List Char → Option (List Char)
  | [] => none
  | c :: t =>
    match matchOptDD tok (c :: t) with
    | some ds => some ds
    | none => searchOptDD tok t

/-- Match `lit(\d+)` (a literal followed by digits) at the head of `s`. -/
def matchLD (lit s : List Char) : Option (List Char) :=
  match dropPfx? lit s with
  | some rest => digitsOrNone rest
  | none => none

/-- Leftmost match of `lit(\d+)` in `s`; used for `/taxonomy/(\d+)`. -/
def searchLD (lit : List Char) : List Char → Option (List Char)
  | [] => none
  | c :: t =>
    match matchLD lit (c :: t) with
    | some ds => some ds
    | none => searchLD lit t

/-- Contiguous-substring test; models Python `needle in s`. -/
def containsSub (needle : List Char) : List Char → Bool
  | [] => needle.isEmpty
  | c :: t => (dropPfx? needle (c :: t)).isSome || containsSub needle t

/-- Models `str.strip()` (ASCII whitespace). -/
def stripWs (s : List Char) : List Char :=
  ((s.dropWhile Char.isWhitespace).reverse.dropWhile Char.isWhitespace).reverse

/-- Models `str.lower()` (ASCII). -/
def lowerL (s : List Char) : List Char := s.map Char.toLower

/-- Models `str.upper()` (ASCII). -/
def upperL (s : List Char) : List Char := s.map Char.toUpper

/-! ## `LinksetBuilder.normalize_join_value` (linkset_builder.py lines 142-203) -/

/-- The characters of `"UniProtKB"`. -/
def uniPKB : List Char := "UniProtKB".data

/-- The characters of `"NCBITaxon"`. -/
def ncbiT : List Char := "NCBITaxon".data

/-- The characters of `"uniprot.org/taxonomy"`. -/
def uniTaxNeedle : List Char := "uniprot.org/taxonomy".data

/-- The characters of `"/taxonomy/"`. -/
def taxSeg : List Char := "/taxonomy/".data

/-- The characters of `"http"`. -/
def httpL : List Char := "http".data

/-- The join-key tokens handled by the upper-casing branch
(`['GSE', 'NCT', 'PMC']`). -/
def casePfxs : List (List Char) := ["GSE".data, "NCT".data, "PMC".data]

/-- The join-key tokens handled by the colon-separated branch
(`['MONDO', 'HGNC', 'GO', 'DOID', 'HP', 'CHEBI', 'UniProtKB', 'PMID',
'NCBITaxon', 'ITIS', 'GBIF']`). -/
def colonPfxs : List (List Char) :=
  ["MONDO".data, "HGNC".data, "GO".data, "DOID".data, "HP".data, "CHEBI".data,
   "UniProtKB".data, "PMID".data, "NCBITaxon".data, "ITIS".data, "GBIF".data]

/-- The character class scanned over by `value.split(':', 1)`. -/
def notColon (c : Char) : Bool := !(c == ':')

/-- Body of `normalize_join_value` after the initial `value.strip()`:
the ordered rule cascade of linkset_builder.py lines 162-203, with `v` the
stripped value and `p` the join-key token. -/
def normCore (v p : List Char) : List Char :=
  match searchDD p v with
  | some ds => p ++ ':' :: ds
  | none =>
    match (if p = uniPKB ∧ containsSub uniTaxNeedle v then searchLD taxSeg v else none) with
    | some ds => ncbiT ++ ':' :: ds
    | none =>
      match (if containsSub ncbiT v ∨ p = uniPKB then searchDD ncbiT v else none) with
      | some ds => ncbiT ++ ':' :: ds
      | none =>
        if p ∈ casePfxs then
          (if isPfxB (lowerL p) (lowerL v) then p ++ v.drop p.length else v)
        else if p ∈ colonPfxs then
          (if (¬ ':' ∈ v) ∧ containsSub p v then
            match searchOptDD p v with
            | some ds => p ++ ':' :: ds
            | none => v
          else if (':' ∈ v) ∧ ¬ (isPfxB httpL v = true) then
            (if upperL (v.takeWhile notColon) = upperL p then
              p ++ ':' :: (v.dropWhile notColon).tail
            else v)
          else v)
        else v

/-- `normalize_join_value` on character lists: strip, then the rule cascade. -/
def normalizeL (v p : List Char) : List Char := normCore (stripWs v) p

/-- `LinksetBuilder.normalize_join_value(value, join_key_prefix)`. -/
def normalize_join_value (value join_key_pfx : String) : String :=
  String.mk (normalizeL value.data join_key_pfx.data)

/-! ## `semantic_mappings.py` -/

/-- `IdentifierCategory` (semantic_mappings.py lines 11-23). -/
inductive IdentifierCategory where
  | taxonomy | gene | disease | chemical | protein | phenotype
  | publication | dataset | clinical_trial | geo | unknown
deriving DecidableEq, Repr

/-- `IDENTIFIER_CATEGORIES` (semantic_mappings.py lines 27-86). -/
def IDENTIFIER_CATEGORIES : List (String × IdentifierCategory) :=
  [("NCBITaxon", .taxonomy), ("ITIS", .taxonomy), ("GBIF", .taxonomy),
   ("UniProtKB", .taxonomy),
   ("HGNC", .gene), ("Ensembl", .gene), ("MGI", .gene), ("ZFIN", .gene),
   ("FlyBase", .gene), ("WormBase", .gene), ("RGD", .gene),
   ("MONDO", .disease), ("DOID", .disease), ("OMIM", .disease), ("Orphanet", .disease),
   ("CHEBI", .chemical), ("ChEBI", .chemical), ("PubChem", .chemical), ("DrugBank", .chemical),
   ("UniProt", .protein), ("Pfam", .protein), ("InterPro", .protein),
   ("HP", .phenotype), ("MP", .phenotype), ("ZP", .phenotype),
   ("PMID", .publication), ("PMC", .publication), ("DOI", .publication), ("arXiv", .publication),
   ("GSE", .geo), ("GEO", .geo), ("SRA", .dataset), ("ENA", .dataset),
   ("NCT", .clinical_trial), ("ISRCTN", .clinical_trial),
   ("GO", .unknown), ("RO", .unknown), ("BFO", .unknown), ("IAO", .unknown)]

/-- `get_category` (semantic_mappings.py lines 128-138). -/
def get_category (p : String) : IdentifierCategory :=
  match IDENTIFIER_CATEGORIES.lookup p with
  | some c => c
  | none => .unknown

/-- `CROSS_PREFIX_MAPPINGS` (semantic_mappings.py lines 99-125). -/
def CROSS_PREFIX_MAPPINGS : List (String × List String) :=
  [("NCBITaxon", ["UniProtKB", "ITIS", "GBIF"]),
   ("UniProtKB", ["NCBITaxon"]),
   ("ITIS", ["NCBITaxon"]),
   ("GBIF", ["NCBITaxon"]),
   ("HGNC", ["Ensembl", "MGI", "ZFIN", "FlyBase", "WormBase", "RGD"]),
   ("Ensembl", ["HGNC", "MGI"]),
   ("MGI", ["HGNC", "Ensembl"]),
   ("ZFIN", ["HGNC"]),
   ("FlyBase", ["HGNC"]),
   ("WormBase", ["HGNC"]),
   ("RGD", ["HGNC"]),
   ("MONDO", ["DOID", "OMIM", "Orphanet"]),
   ("DOID", ["MONDO", "OMIM"]),
   ("OMIM", ["MONDO", "DOID"]),
   ("Orphanet", ["MONDO"]),
   ("PMID", ["PMC", "DOI"]),
   ("PMC", ["PMID", "DOI"]),
   ("DOI", ["PMID", "PMC"])]

/-- `prefix2 in CROSS_PREFIX_MAPPINGS[prefix1]` guarded by key presence. -/
def crossMapped (p1 p2 : String) : Bool :=
  match CROSS_PREFIX_MAPPINGS.lookup p1 with
  | some l => l.contains p2
  | none => false

/-- `are_semantically_related` (semantic_mappings.py lines 173-199). -/
def are_semantically_related (p1 p2 : String) : Bool :=
  if p1 = p2 then true
  else if get_category p1 ≠ IdentifierCategory.unknown ∧ get_category p1 = get_category p2 then true
  else if crossMapped p1 p2 then true
  else if crossMapped p2 p1 then true
  else false

/-! ## Context schema (context_builder/model/context_schema.py) -/

/-- `IdentifierPattern` (context_schema.py lines 20-37): only the fields read
by the bridge code are modelled.  `pfx` models the `prefix` field;
`exampleValue` models `example`; `pattern` is the optional value regex. -/
structure IdentifierPattern where
  pfx : String
  pattern : Option String := none
  exampleValue : Option String := none
  predicates : List String := []
deriving DecidableEq, Repr

/-- `IdentifierInfo` (context_schema.py lines 40-53). -/
structure IdentifierInfo where
  predicates : List String := []
  patterns : List IdentifierPattern := []
deriving DecidableEq, Repr

/-- `GlobalContext` (context_schema.py lines 100-115): fields read by the
bridge code. -/
structure GlobalContext where
  graph_id : String
  endpoint : String
  entity_types : List String := []
  identifier_info : Option IdentifierInfo := none
deriving DecidableEq, Repr

/-! ## `LinksetBuilder._find_best_matching_predicate` (lines 106-140) -/

/-- Python truthiness of an optional predicate string: `None` and `""` are
falsy (`if not source_pred`). -/
def falsyOpt : Option String → Bool
  | none => true
  | some s => s == ""

/-- `_find_best_matching_predicate`: a predicate common to both patterns wins
(first one in the source pattern's order); otherwise each side independently
takes its pattern's first predicate, falling back to the first entry of its
graph's `identifier_info.predicates`. -/
def find_best_matching_predicate (srcInfo tgtInfo : IdentifierInfo)
    (sp tp : IdentifierPattern) : Option String × Option String :=
  match sp.predicates.find? (fun q => tp.predicates.contains q) with
  | some q => (some q, some q)
  | none =>
    let s0 : Option String := sp.predicates.head?
    let t0 : Option String := tp.predicates.head?
    let s1 := match srcInfo.predicates with
      | x :: _ => if falsyOpt s0 then some x else s0
      | [] => s0
    let t1 := match tgtInfo.predicates with
      | x :: _ => if falsyOpt t0 then some x else t0
      | [] => t0
    (s1, t1)

/-! ## Node queries (linkset_builder.py lines 205-442)

A query against the remote SPARQL collaborator is modelled by its response:
`.ok rows` for a result set (each row a `(?entity, ?value)` binding; in
entity-IRI mode only the first component is bound), `.error e` for a raised
exception. -/

/-- `matching_predicate == 'ENTITY_IRI' or matching_predicate.startswith('ENTITY_IRI:')`. -/
def isEntityIriPred (s : String) : Bool :=
  s == "ENTITY_IRI" || isPfxB "ENTITY_IRI:".data s.data

/-- `preferred_predicate and preferred_predicate in (pattern.predicates or [])`. -/
def wantsPreferred (pat : IdentifierPattern) : Option String → Bool
  | some pp => (!(pp == "")) && pat.predicates.contains pp
  | none => false

/-- The predicate-selection chain of `query_source_nodes` /
`query_target_nodes` (lines 228-238 and 353-363): preferred predicate if
usable, else the pattern's first predicate, else the graph's first generic
identifier predicate, else `none` (the caller then returns `[]`). -/
def selectedPredicate (info : IdentifierInfo) (pat : IdentifierPattern)
    (preferred : Option String) : Option String :=
  if wantsPreferred pat preferred then preferred
  else match pat.predicates with
  | x :: _ => some x
  | [] => info.predicates.head?

/-- Entity-IRI mode result assembly (lines 265-275 / 390-400): for each
returned entity IRI, extract `tok[:_](\d+)`; entities without such a match
are dropped; the kept value is `normalize_join_value("{tok}:{digits}", tok)`. -/
def entityIriNodes (qp : String) (rows : List (String × String)) :
    List (String × String) :=
  rows.filterMap (fun row =>
    match searchDD qp.data row.1.data with
    | some ds => some (row.1, normalize_join_value (String.mk (qp.data ++ ':' :: ds)) qp)
    | none => none)

/-- Value-mode result assembly (lines 306-317 / 431-440): each row's value is
normalized against the canonical join key for a semantic match, otherwise
against the queried token. -/
def valueNodes (jk qp : String) (semantic : Option String)
    (rows : List (String × String)) : List (String × String) :=
  rows.map (fun row =>
    (row.1, normalize_join_value row.2 (match semantic with | some _ => jk | none => qp)))

/-- `LinksetBuilder.query_source_nodes` (lines 205-319). -/
def query_source_nodes (ctx : GlobalContext)
    (resp : Except String (List (String × String)))
    (jk : String) (preferred : Option String) (semantic : Option String) :
    Except String (List (String × String)) :=
  match ctx.identifier_info with
  | none => .ok []
  | some info =>
    let qp := match semantic with | some s => s | none => jk
    match info.patterns.find? (fun pt => pt.pfx == qp) with
    | none => .ok []
    | some pat =>
      match selectedPredicate info pat preferred with
      | none => .ok []
      | some pred =>
        match resp with
        | .error e => .error e
        | .ok rows =>
          if isEntityIriPred pred then .ok (entityIriNodes qp rows)
          else .ok (valueNodes jk qp semantic rows)

/-- `LinksetBuilder.query_target_nodes` (lines 321-442): identical to the
source query except that for a semantic match the pattern is located by
`are_semantically_related(join_key_prefix, pattern.prefix)`. -/
def query_target_nodes (ctx : GlobalContext)
    (resp : Except String (List (String × String)))
    (jk : String) (preferred : Option String) (semantic : Option String) :
    Except String (List (String × String)) :=
  match ctx.identifier_info with
  | none => .ok []
  | some info =>
    let found : Option IdentifierPattern :=
      match semantic with
      | some _ => info.patterns.find? (fun pt => are_semantically_related jk pt.pfx)
      | none => info.patterns.find? (fun pt => pt.pfx == jk)
    match found with
    | none => .ok []
    | some pat =>
      let qp := match semantic with | some _ => pat.pfx | none => jk
      match selectedPredicate info pat preferred with
      | none => .ok []
      | some pred =>
        match resp with
        | .error e => .error e
        | .ok rows =>
          if isEntityIriPred pred then .ok (entityIriNodes qp rows)
          else .ok (valueNodes jk qp semantic rows)

/-! ## RDF graph model and `build_linkset` (lines 444-542) -/

/-- An RDF object term: IRI, string literal, or double literal (modelled as a
rational, since the code only stores the confidence value). -/
inductive RNode where
  | iri : String → RNode
  | str : String → RNode
  | rat : Rat → RNode
deriving DecidableEq, Repr

/-- A triple: subject IRI, predicate IRI, object. -/
abbrev RTriple := String × String × RNode

/-- `rdflib.Graph.add`: set semantics, insertion order kept. -/
def addT (g : List RTriple) (t : RTriple) : List RTriple :=
  if t ∈ g then g else g ++ [t]

/-- Fold `addT` over a block of triples. -/
def addTs (g : List RTriple) (ts : List RTriple) : List RTriple := ts.foldl addT g

def rdfTypeP : String := "http://www.w3.org/1999/02/22-rdf-syntax-ns#type"
def voidLinksetC : String := "http://rdfs.org/ns/void#Linkset"
def dctTitleP : String := "http://purl.org/dc/terms/title"
def subjectsTargetP : String := "http://rdfs.org/ns/void#subjectsTarget"
def objectsTargetP : String := "http://rdfs.org/ns/void#objectsTarget"
def linkPredicateP : String := "http://rdfs.org/ns/void#linkPredicate"
def owlSameAsI : String := "http://www.w3.org/2002/07/owl#sameAs"
def linkAssertionC : String := "https://wobd.org/bridge#LinkAssertion"
def sourceNodeP : String := "https://wobd.org/bridge#sourceNode"
def targetNodeP : String := "https://wobd.org/bridge#targetNode"
def sourceGraphP : String := "https://wobd.org/bridge#sourceGraph"
def targetGraphP : String := "https://wobd.org/bridge#targetGraph"
def joinKeyTypeP : String := "https://wobd.org/bridge#joinKeyType"
def joinKeyValueP : String := "https://wobd.org/bridge#joinKeyValue"
def confidenceP : String := "https://wobd.org/bridge#confidence"
def inLinksetP : String := "https://wobd.org/bridge#inLinkset"

/-- Python `s.split('/')[-1]`. -/
def lastSeg (s : String) : String :=
  String.mk ((s.data.reverse.takeWhile (fun c => ¬ (c = '/'))).reverse)

/-- Python `s.lower()`. -/
def lowerStr (s : String) : String := String.mk (lowerL s.data)

/-- `JOIN_KEY_MAPPING` (linkset_builder.py lines 26-38). -/
def JOIN_KEY_MAPPING : List (String × String) :=
  [("GSE", "https://wobd.org/bridge#GSE_ID"),
   ("NCT", "https://wobd.org/bridge#NCT_ID"),
   ("MONDO", "https://wobd.org/bridge#MONDO_ID"),
   ("HGNC", "https://wobd.org/bridge#HGNC_ID"),
   ("GO", "https://wobd.org/bridge#GO_ID"),
   ("DOID", "https://wobd.org/bridge#DOID_ID"),
   ("HP", "https://wobd.org/bridge#HP_ID"),
   ("CHEBI", "https://wobd.org/bridge#CHEBI_ID"),
   ("UniProtKB", "https://wobd.org/bridge#UniProtKB_ID"),
   ("PMID", "https://wobd.org/bridge#PMID_ID"),
   ("PMC", "https://wobd.org/bridge#PMC_ID")]

/-- Join-key type IRI: the mapping entry, or a synthesized `{tok}_ID` IRI for
unknown tokens (lines 465-469). -/
def joinKeyTypeIri (jk : String) : String :=
  match JOIN_KEY_MAPPING.lookup jk with
  | some t => t
  | none => "https://wobd.org/bridge#" ++ jk ++ "_ID"

/-- The deterministic linkset IRI (line 474). -/
def linksetIriOf (source_id target_id jk : String) : String :=
  "https://wobd.org/bridge/linkset/" ++ source_id ++ "__" ++ target_id ++ "-" ++ lowerStr jk

/-- The five linkset-level triples (lines 477-481). -/
def linksetTriples (li source_id target_id sEp tEp jk : String) : List RTriple :=
  [(li, rdfTypeP, .iri voidLinksetC),
   (li, dctTitleP, .str ("Linkset: " ++ source_id ++ " → " ++ target_id ++ " via " ++ jk ++ " IDs")),
   (li, subjectsTargetP, .iri sEp),
   (li, objectsTargetP, .iri tEp),
   (li, linkPredicateP, .iri owlSameAsI)]

/-- The deterministic link-assertion IRI (line 528): built from the two node
IRIs' last path segments and the join key only — not from the value. -/
def linkIri (source_id target_id jk sIri tIri : String) : String :=
  "https://wobd.org/bridge/link/" ++ source_id ++ "_" ++ lastSeg sIri ++ "__" ++
    target_id ++ "_" ++ lastSeg tIri ++ "-" ++ lowerStr jk

/-- The nine triples of one link assertion (lines 530-538). -/
def assertionTriples (source_id target_id jk jkt sEp tEp li : String)
    (conf : Rat) (sIri tIri sVal : String) : List RTriple :=
  let a := linkIri source_id target_id jk sIri tIri
  [(a, rdfTypeP, .iri linkAssertionC),
   (a, sourceNodeP, .iri sIri),
   (a, targetNodeP, .iri tIri),
   (a, sourceGraphP, .iri sEp),
   (a, targetGraphP, .iri tEp),
   (a, joinKeyTypeP, .iri jkt),
   (a, joinKeyValueP, .str sVal),
   (a, confidenceP, .rat conf),
   (a, inLinksetP, .iri li)]

/-- One iteration of the probe loop (lines 524-540): the source row `sn` is
matched against the target index, i.e. against every target row carrying the
same canonical value, and one assertion block is added per match. -/
def addRow (source_id target_id jk jkt sEp tEp li : String) (conf : Rat)
    (targetNodes : List (String × String)) (g : List RTriple)
    (sn : String × String) : List RTriple :=
  (targetNodes.filter (fun tn => tn.2 == sn.2)).foldl (fun g tn =>
    addTs g (assertionTriples source_id target_id jk jkt sEp tEp li conf sn.1 tn.1 sn.2)) g

/-- The index-and-probe loop of `build_linkset` (lines 515-540): for each
source row, every target row with the same canonical value yields one
assertion block added to the graph. -/
def matchAndAdd (source_id target_id jk jkt sEp tEp li : String) (conf : Rat)
    (sourceNodes targetNodes : List (String × String)) (g0 : List RTriple) :
    List RTriple :=
  sourceNodes.foldl (addRow source_id target_id jk jkt sEp tEp li conf targetNodes) g0

/-- `Fetch` packages the remote collaborator's responses to the one source
query and the one target query that a `build_linkset` call issues. -/
structure Fetch where
  sourceResp : Except String (List (String × String))
  targetResp : Except String (List (String × String))

/-- Pattern resolution with semantic fallback (lines 483-503): locate the
pattern whose `prefix` equals the join key; failing that, the first pattern
semantically related to it, recording that pattern's `prefix` as the
semantic-match token. -/
def semanticResolve (info : IdentifierInfo) (jk : String) :
    Option IdentifierPattern × Option String :=
  match info.patterns.find? (fun pt => pt.pfx == jk) with
  | some pt => (some pt, none)
  | none =>
    match info.patterns.find? (fun pt => are_semantically_related jk pt.pfx) with
    | some pt => (some pt, some pt.pfx)
    | none => (none, none)

/-- The preferred-predicate pair of `build_linkset` (lines 505-509): computed
by `_find_best_matching_predicate` when both sides resolved a pattern,
otherwise `(None, None)`. -/
def predsOf (sInfo tInfo : IdentifierInfo) (jk : String) :
    Option String × Option String :=
  match (semanticResolve sInfo jk).1, (semanticResolve tInfo jk).1 with
  | some sp, some tp => find_best_matching_predicate sInfo tInfo sp tp
  | _, _ => (none, none)

/-- The initial graph: the five linkset-level triples (lines 455-481). -/
def initialGraph (src tgt : GlobalContext) (jk : String) : List RTriple :=
  addTs [] (linksetTriples (linksetIriOf src.graph_id tgt.graph_id jk)
    src.graph_id tgt.graph_id src.endpoint tgt.endpoint jk)

/-- `LinksetBuilder.build_linkset` (lines 444-542).  A raised exception
(including a failed remote query) is an `.error` result; the code contains no
handler, so query errors propagate out of this function.  Accessing
`identifier_info.patterns` on a context without identifier info raises
(`None.patterns`), also modelled as an error. -/
def build_linkset (src tgt : GlobalContext) (f : Fetch) (jk : String)
    (conf : Rat) : Except String (List RTriple) :=
  match src.identifier_info, tgt.identifier_info with
  | some sInfo, some tInfo =>
    match query_source_nodes src f.sourceResp jk (predsOf sInfo tInfo jk).1
        (semanticResolve sInfo jk).2 with
    | .error e => .error e
    | .ok sourceNodes =>
      match query_target_nodes tgt f.targetResp jk (predsOf sInfo tInfo jk).2
          (semanticResolve tInfo jk).2 with
      | .error e => .error e
      | .ok targetNodes =>
        .ok (matchAndAdd src.graph_id tgt.graph_id jk (joinKeyTypeIri jk)
              src.endpoint tgt.endpoint (linksetIriOf src.graph_id tgt.graph_id jk)
              conf sourceNodes targetNodes (initialGraph src tgt jk))
  | _, _ => .error "AttributeError: identifier_info is None"

/-! ## Registry pair keys and the batch loop -/

/-- Per-pair key computation of
`GraphRegistry.find_pairs_with_shared_join_keys` (graph_registry.py lines
142-158), given the two graphs' pattern-key lists (dict keys, hence
duplicate-free).  The first component models the exact intersection
`list(src_keys & tgt_keys)`; the second models the deduplicated
`semantic_shared` list: every source token distinct from, and semantically
related to, some target token.  Python's set iteration order is modelled by
source order; membership is exact. -/
def pair_shared_keys (srcPfxs tgtPfxs : List String) : List String × List String :=
  (srcPfxs.filter (fun p => tgtPfxs.contains p),
   srcPfxs.filter (fun p => tgtPfxs.any (fun q => (!(p == q)) && are_semantically_related p q)))

/-- `all_keys = exact_keys + semantic_keys` (batch_bridge_generator.py line 56):
the batch generator calls `build_linkset` once per entry of this list. -/
def all_join_keys (srcPfxs tgtPfxs : List String) : List String :=
  (pair_shared_keys srcPfxs tgtPfxs).1 ++ (pair_shared_keys srcPfxs tgtPfxs).2

/-- Linkset identifier `{source_id}__{target_id}-{join_key.lower()}`
(batch_bridge_generator.py line 96). -/
def linksetId (source_id target_id jk : String) : String :=
  source_id ++ "__" ++ target_id ++ "-" ++ lowerStr jk

/-- The per-key loop of `BatchBridgeGenerator.generate_all_linksets`
(batch_bridge_generator.py lines 77-102): each key is built inside
`try/except Exception: continue`, so a key whose build raises is skipped and
the remaining keys are still processed.  `fetch` gives the remote responses
for each key's queries. -/
def generate_for_pair (src tgt : GlobalContext) (fetch : String → Fetch)
    (keys : List String) : List (String × List RTriple) :=
  keys.filterMap (fun k =>
    match build_linkset src tgt (fetch k) k 1 with
    | .ok g => some (linksetId src.graph_id tgt.graph_id k, g)
    | .error _ => none)

/-! ## Observation helpers on built graphs -/

/-- The confidence values carried by a graph's assertion triples. -/
def confidencesOf (g : List RTriple) : List Rat :=
  g.filterMap (fun t =>
    if t.2.1 = confidenceP then
      (match t.2.2 with | .rat q => some q | _ => none)
    else none)

/-- The number of distinct `LinkAssertion`-typed resources in a graph (each
distinct subject contributes exactly one `rdf:type` triple to the set). -/
def assertionCount (g : List RTriple) : Nat :=
  (g.filter (fun t => t.2.1 == rdfTypeP && t.2.2 == RNode.iri linkAssertionC)).length

/-- Some assertion subject carries identical `sourceGraph` and `targetGraph`
objects. -/
def hasSelfLink (g : List RTriple) : Bool :=
  g.any (fun t1 => t1.2.1 == sourceGraphP &&
    g.any (fun t2 => t2.1 == t1.1 && t2.2.1 == targetGraphP && t2.2.2 == t1.2.2))

/-! ## Concrete fixtures used by counterexamples and witnesses -/

/-- A minimal context whose only identifier pattern is `MONDO` carried on
`schema:identifier`. -/
def mondoPattern : IdentifierPattern :=
  { pfx := "MONDO", predicates := ["schema:identifier"] }

def ctxMondo (gid ep : String) : GlobalContext :=
  { graph_id := gid, endpoint := ep, entity_types := ["http://schema.org/Dataset"],
    identifier_info := some { predicates := ["schema:identifier"], patterns := [mondoPattern] } }

/-- Responses: the source entity `s1` carries two raw literals that both
normalize to `MONDO:0000001`; one target entity matches. -/
def fetchDup : Fetch :=
  { sourceResp := .ok [("http://a/s1", "MONDO:0000001"), ("http://a/s1", "MONDO_0000001")],
    targetResp := .ok [("http://b/t1", "MONDO:0000001")] }

/-- Responses with exactly one matching row on each side. -/
def fetchOne : Fetch :=
  { sourceResp := .ok [("http://a/s1", "MONDO:0000001")],
    targetResp := .ok [("http://b/t1", "MONDO:0000001")] }

/-- Responses where the source-side query raised (remote error/timeout). -/
def fetchErr : Fetch :=
  { sourceResp := .error "timeout", targetResp := .ok [("http://b/t1", "MONDO:0000001")] }

/-- A per-key response function whose `MONDO` query raises and whose other
queries succeed. -/
def fetchByKey (k : String) : Fetch :=
  if k = "MONDO" then { sourceResp := .error "timeout", targetResp := .ok [] }
  else fetchOne

/-- A context whose `MONDO` identifiers live in the entity IRIs themselves. -/
def mondoIriPattern : IdentifierPattern :=
  { pfx := "MONDO", predicates := ["ENTITY_IRI"] }

def ctxEntityIri (gid ep : String) : GlobalContext :=
  { graph_id := gid, endpoint := ep, entity_types := ["http://www.w3.org/2002/07/owl#Class"],
    identifier_info := some { predicates := [], patterns := [mondoIriPattern] } }

/-- Entity rows for the entity-IRI fixture: one IRI with a digit run after
the token, one IRI that merely mentions the token (no digits). -/
def entityRows : List (String × String) :=
  [("http://purl.obolibrary.org/obo/MONDO_0000001", ""),
   ("http://purl.obolibrary.org/obo/MONDO_misc", "")]

/-- Extract the graph of a successful build (empty graph for an error);
used only to state concrete counterexamples compactly. -/
def okGraph (r : Except String (List RTriple)) : List RTriple :=
  match r with
  | .ok g => g
  | .error _ => []

deriving instance DecidableEq for Except

set_option maxRecDepth 8000

/-! # Theorems -/

/-! ## Claim C3: symmetry of `are_semantically_related` -/

/-- Claim C3: semantic relatedness is symmetric: for every pair of identifier
tokens `p1, p2`, `are_semantically_related p1 p2 = are_semantically_related
p2 p1`.  Equality of the two tokens and equality of (non-unknown) categories
are symmetric conditions, and the cross-mapping table is consulted in both
directions. -/
theorem are_semantically_related_symm (p1 p2 : String) :
    are_semantically_related p1 p2 = are_semantically_related p2 p1 := by
  unfold are_semantically_related
  by_cases h : p1 = p2
  · subst h; rfl
  · have h' : ¬ p2 = p1 := fun hh => h hh.symm
    rw [if_neg h, if_neg h']
    have hcat : (get_category p1 ≠ IdentifierCategory.unknown ∧
        get_category p1 = get_category p2)
        ↔ (get_category p2 ≠ IdentifierCategory.unknown ∧
        get_category p2 = get_category p1) := by
      constructor
      · rintro ⟨ha, hb⟩; exact ⟨hb ▸ ha, hb.symm⟩
      · rintro ⟨ha, hb⟩; exact ⟨hb ▸ ha, hb.symm⟩
    by_cases hc : get_category p1 ≠ IdentifierCategory.unknown ∧
        get_category p1 = get_category p2
    · rw [if_pos hc, if_pos (hcat.mp hc)]
    · rw [if_neg hc, if_neg (fun hh => hc (hcat.mpr hh))]
      cases h12 : crossMapped p1 p2 <;> cases h21 : crossMapped p2 p1 <;>
        simp [h12, h21]

/-! ## Claim C8: the taxonomy-IRI rewriting scenario -/

/-- Claim C8: normalizing the raw value
`"https://www.uniprot.org/taxonomy/9606"` against the token `UniProtKB`
yields the canonical cross-system taxonomy token `"NCBITaxon:9606"`, not a
`UniProtKB:` token. -/
theorem normalize_uniprot_taxonomy_iri :
    normalize_join_value "https://www.uniprot.org/taxonomy/9606" "UniProtKB"
      = "NCBITaxon:9606" := by decide

/-! ## Claim C9: semantic keys are not disjoint from exact keys -/

/-- Claim C9: in the registry's per-pair key computation, a token `p` listed
by both graphs is in the exact key list, and is *also* added to the semantic
key list as soon as the target graph lists some distinct related token `q` —
the code has no `p not in exact` guard (unlike
`LinksetBuilder.find_shared_join_keys`).  The batch generator then iterates
`exact ++ semantic`, so the key `p` occurs at least twice in the list of
join keys it builds linksets for. -/
theorem semantic_keys_overlap_exact_keys (srcPfxs tgtPfxs : List String)
    (p q : String) (hps : p ∈ srcPfxs) (hpt : p ∈ tgtPfxs) (hqt : q ∈ tgtPfxs)
    (hne : p ≠ q) (hrel : are_semantically_related p q = true) :
    p ∈ (pair_shared_keys srcPfxs tgtPfxs).1 ∧
    p ∈ (pair_shared_keys srcPfxs tgtPfxs).2 ∧
    2 ≤ (all_join_keys srcPfxs tgtPfxs).count p := by
  have h1 : p ∈ (pair_shared_keys srcPfxs tgtPfxs).1 := by
    simp only [pair_shared_keys]
    exact List.mem_filter.mpr ⟨hps, by simpa using hpt⟩
  have h2 : p ∈ (pair_shared_keys srcPfxs tgtPfxs).2 := by
    simp only [pair_shared_keys]
    refine List.mem_filter.mpr ⟨hps, ?_⟩
    refine List.any_eq_true.mpr ⟨q, hqt, ?_⟩
    rw [hrel, Bool.and_true, Bool.not_eq_true', beq_eq_false_iff_ne]
    exact hne
  refine ⟨h1, h2, ?_⟩
  unfold all_join_keys
  rw [List.count_append]
  have c1 : 0 < (pair_shared_keys srcPfxs tgtPfxs).1.count p :=
    List.count_pos_iff.mpr h1
  have c2 : 0 < (pair_shared_keys srcPfxs tgtPfxs).2.count p :=
    List.count_pos_iff.mpr h2
  omega

/-- Witness for C9 at concrete inputs: both graphs list `MONDO` and `DOID`,
which are distinct and related via the disease category, so `MONDO` is both
an exact and a semantic key and is built twice. -/
theorem semantic_keys_overlap_exact_keys_witness :
    "MONDO" ∈ (pair_shared_keys ["MONDO", "DOID"] ["MONDO", "DOID"]).1 ∧
    "MONDO" ∈ (pair_shared_keys ["MONDO", "DOID"] ["MONDO", "DOID"]).2 ∧
    2 ≤ (all_join_keys ["MONDO", "DOID"] ["MONDO", "DOID"]).count "MONDO" :=
  semantic_keys_overlap_exact_keys ["MONDO", "DOID"] ["MONDO", "DOID"] "MONDO" "DOID"
    (by decide) (by decide) (by decide) (by decide) (by decide)

/-! ## Claim C7: ranked predicate-selection policy -/

/-- Claim C7: predicate selection follows the ranked policy.  (1) If some
predicate is in both patterns' lists, `_find_best_matching_predicate` returns
that single predicate for both sides (the first such in the source pattern's
order).  (2) Otherwise each side independently falls back to the first
predicate of its own pattern, then to the first entry of that graph's generic
`identifier_info.predicates` list (stated for predicate lists without the
empty string, whose Python falsiness would also trigger the fallback).
(3) A query whose side has no predicate available at all returns the empty
node list instead of raising. -/
theorem predicate_selection_policy :
    (∀ (srcInfo tgtInfo : IdentifierInfo) (sp tp : IdentifierPattern) (q : String),
      sp.predicates.find? (fun r => tp.predicates.contains r) = some q →
      find_best_matching_predicate srcInfo tgtInfo sp tp = (some q, some q)) ∧
    (∀ (srcInfo tgtInfo : IdentifierInfo) (sp tp : IdentifierPattern),
      (∀ r ∈ sp.predicates, r ∉ tp.predicates) →
      ¬ "" ∈ sp.predicates → ¬ "" ∈ tp.predicates →
      find_best_matching_predicate srcInfo tgtInfo sp tp =
        ((match sp.predicates with
          | x :: _ => some x
          | [] => srcInfo.predicates.head?),
         (match tp.predicates with
          | x :: _ => some x
          | [] => tgtInfo.predicates.head?))) ∧
    (∀ (ctx : GlobalContext) (resp : Except String (List (String × String)))
      (jk : String) (preferred : Option String)
      (info : IdentifierInfo) (pat : IdentifierPattern),
      ctx.identifier_info = some info →
      info.patterns.find? (fun pt => pt.pfx == jk) = some pat →
      pat.predicates = [] → info.predicates = [] →
      query_source_nodes ctx resp jk preferred none = .ok []) := by
  refine ⟨?_, ?_, ?_⟩
  · intro srcInfo tgtInfo sp tp q hq
    unfold find_best_matching_predicate
    rw [hq]
  · intro srcInfo tgtInfo sp tp hnc hs ht
    have hfind : sp.predicates.find? (fun r => tp.predicates.contains r) = none := by
      apply List.find?_eq_none.mpr
      intro r hr
      simpa using hnc r hr
    unfold find_best_matching_predicate
    rw [hfind]
    cases hsp : sp.predicates with
    | nil =>
      cases htp : tp.predicates with
      | nil =>
        simp only [List.head?]
        cases srcInfo.predicates <;> cases tgtInfo.predicates <;> rfl
      | cons y ys =>
        have hy : ¬ (y = "") := by
          intro he; exact ht (he ▸ (htp ▸ List.mem_cons_self y ys))
        simp only [List.head?]
        cases srcInfo.predicates <;> cases tgtInfo.predicates <;>
          simp [falsyOpt, hy]
    | cons x xs =>
      have hx : ¬ (x = "") := by
        intro he; exact hs (he ▸ (hsp ▸ List.mem_cons_self x xs))
      cases htp : tp.predicates with
      | nil =>
        simp only [List.head?]
        cases srcInfo.predicates <;> cases tgtInfo.predicates <;>
          simp [falsyOpt, hx]
      | cons y ys =>
        have hy : ¬ (y = "") := by
          intro he; exact ht (he ▸ (htp ▸ List.mem_cons_self y ys))
        simp only [List.head?]
        cases srcInfo.predicates <;> cases tgtInfo.predicates <;>
          simp [falsyOpt, hx, hy]
  · intro ctx resp jk preferred info pat hinfo hfind hpp hip
    have hsel : selectedPredicate info pat preferred = none := by
      unfold selectedPredicate
      have hw : wantsPreferred pat preferred = false := by
        cases preferred with
        | none => rfl
        | some pp => simp [wantsPreferred, hpp]
      rw [hw]
      simp [hpp, hip]
    simp [query_source_nodes, hinfo, hfind, hsel]

/-- Witness for C7: instantiates all three conjuncts at concrete inputs:
a shared predicate `dct:identifier`, disjoint nonempty predicate lists with
generic fallbacks, and a pattern with no predicates at all. -/
theorem predicate_selection_policy_witness :
    find_best_matching_predicate ⟨["p0"], []⟩ ⟨["q0"], []⟩
        ⟨"GSE", none, none, ["a", "dct:identifier"]⟩
        ⟨"GSE", none, none, ["dct:identifier"]⟩ =
      (some "dct:identifier", some "dct:identifier") ∧
    find_best_matching_predicate ⟨["p0"], []⟩ ⟨["q0"], []⟩
        ⟨"GSE", none, none, ["a"]⟩ ⟨"GSE", none, none, ["b"]⟩ =
      (some "a", some "b") ∧
    query_source_nodes
        ⟨"g1", "http://ep1", [], some ⟨[], [⟨"GSE", none, none, []⟩]⟩⟩
        (.error "never-queried") "GSE" none none = .ok [] := by
  refine ⟨?_, ?_, ?_⟩
  · exact predicate_selection_policy.1 ⟨["p0"], []⟩ ⟨["q0"], []⟩
      ⟨"GSE", none, none, ["a", "dct:identifier"]⟩ ⟨"GSE", none, none, ["dct:identifier"]⟩
      "dct:identifier" (by decide)
  · exact predicate_selection_policy.2.1 ⟨["p0"], []⟩ ⟨["q0"], []⟩
      ⟨"GSE", none, none, ["a"]⟩ ⟨"GSE", none, none, ["b"]⟩
      (by decide) (by decide) (by decide)
  · exact predicate_selection_policy.2.2
      ⟨"g1", "http://ep1", [], some ⟨[], [⟨"GSE", none, none, []⟩]⟩⟩
      (.error "never-queried") "GSE" none ⟨[], [⟨"GSE", none, none, []⟩]⟩
      ⟨"GSE", none, none, []⟩ rfl (by decide) rfl rfl

/-! ## Graph-construction lemmas (set semantics of `rdflib.Graph.add`) -/

/-- `addT` keeps existing triples. -/
theorem mem_addT_of_mem {g : List RTriple} {a : RTriple} (t : RTriple)
    (ha : a ∈ g) : a ∈ addT g t := by
  unfold addT
  split
  · exact ha
  · exact List.mem_append_left _ ha

/-- `addT` contains the added triple. -/
theorem mem_addT_self (g : List RTriple) (t : RTriple) : t ∈ addT g t := by
  unfold addT
  split
  · assumption
  · exact List.mem_append_right _ (List.mem_singleton.mpr rfl)

/-- Adding a triple already present is a no-op. -/
theorem addT_eq_of_mem {g : List RTriple} {t : RTriple} (h : t ∈ g) :
    addT g t = g := by
  unfold addT
  exact if_pos h

/-- Membership in `addT` comes from the graph or the added triple. -/
theorem mem_of_mem_addT {g : List RTriple} {a t : RTriple}
    (h : a ∈ addT g t) : a ∈ g ∨ a = t := by
  unfold addT at h
  split at h
  · exact Or.inl h
  · rcases List.mem_append.mp h with h' | h'
    · exact Or.inl h'
    · exact Or.inr (List.mem_singleton.mp h')

/-- `addTs` keeps existing triples. -/
theorem mem_addTs_of_mem {a : RTriple} (ts : List RTriple) :
    ∀ g : List RTriple, a ∈ g → a ∈ addTs g ts := by
  induction ts with
  | nil => intro g ha; exact ha
  | cons t ts ih =>
    intro g ha
    exact ih (addT g t) (mem_addT_of_mem t ha)

/-- `addTs` contains every added triple. -/
theorem mem_addTs_of_mem_block {a : RTriple} (ts : List RTriple) :
    ∀ g : List RTriple, a ∈ ts → a ∈ addTs g ts := by
  induction ts with
  | nil => intro g ha; cases ha
  | cons t ts ih =>
    intro g ha
    rcases List.mem_cons.mp ha with h | h
    · subst h
      exact mem_addTs_of_mem ts (addT g a) (mem_addT_self g a)
    · exact ih (addT g t) h

/-- Adding a block of triples already present is a no-op. -/
theorem addTs_eq_of_subset (ts : List RTriple) :
    ∀ g : List RTriple, (∀ t ∈ ts, t ∈ g) → addTs g ts = g := by
  induction ts with
  | nil => intro g _; rfl
  | cons t ts ih =>
    intro g h
    have h0 : addT g t = g := addT_eq_of_mem (h t (List.mem_cons_self t ts))
    show addTs (addT g t) ts = g
    rw [h0]
    exact ih g (fun t' ht' => h t' (List.mem_cons_of_mem t ht'))

/-- Membership in `addTs` comes from the graph or the block. -/
theorem mem_of_mem_addTs {a : RTriple} (ts : List RTriple) :
    ∀ g : List RTriple, a ∈ addTs g ts → a ∈ g ∨ a ∈ ts := by
  induction ts with
  | nil => intro g h; exact Or.inl h
  | cons t ts ih =>
    intro g h
    rcases ih (addT g t) h with h' | h'
    · rcases mem_of_mem_addT h' with h'' | h''
      · exact Or.inl h''
      · exact Or.inr (List.mem_cons.mpr (Or.inl h''))
    · exact Or.inr (List.mem_cons_of_mem t h')

/-- Generic: folding block-insertion keeps existing triples. -/
theorem mem_foldB_of_mem {α : Type} (B : α → List RTriple) {a : RTriple}
    (L : List α) :
    ∀ g : List RTriple, a ∈ g → a ∈ L.foldl (fun g x => addTs g (B x)) g := by
  induction L with
  | nil => intro g ha; exact ha
  | cons x L ih =>
    intro g ha
    exact ih _ (mem_addTs_of_mem _ g ha)

/-- Generic: after folding block-insertion, every triple of every block is
present. -/
theorem mem_foldB_block {α : Type} (B : α → List RTriple) {a : RTriple}
    (L : List α) :
    ∀ g : List RTriple, ∀ x ∈ L, a ∈ B x →
      a ∈ L.foldl (fun g x => addTs g (B x)) g := by
  induction L with
  | nil => intro g x hx; cases hx
  | cons x0 L ih =>
    intro g x hx ha
    rcases List.mem_cons.mp hx with h | h
    · subst h
      exact mem_foldB_of_mem B L _ (mem_addTs_of_mem_block _ g ha)
    · exact ih _ x h ha

/-- Generic: folding block-insertion is a no-op when all blocks are already
present. -/
theorem foldB_eq_of_subset {α : Type} (B : α → List RTriple) (L : List α) :
    ∀ g : List RTriple, (∀ x ∈ L, ∀ t ∈ B x, t ∈ g) →
      L.foldl (fun g x => addTs g (B x)) g = g := by
  induction L with
  | nil => intro g _; rfl
  | cons x L ih =>
    intro g h
    have h0 : addTs g (B x) = g := addTs_eq_of_subset _ g (h x (List.mem_cons_self x L))
    show L.foldl _ (addTs g (B x)) = g
    rw [h0]
    exact ih g (fun x' hx' => h x' (List.mem_cons_of_mem x hx'))

/-- Generic: membership after folding block-insertion comes from the initial
graph or from one of the blocks. -/
theorem mem_of_mem_foldB {α : Type} (B : α → List RTriple) {a : RTriple}
    (L : List α) :
    ∀ g : List RTriple, a ∈ L.foldl (fun g x => addTs g (B x)) g →
      a ∈ g ∨ ∃ x ∈ L, a ∈ B x := by
  induction L with
  | nil => intro g h; exact Or.inl h
  | cons x L ih =>
    intro g h
    rcases ih _ h with h' | ⟨x', hx', ha'⟩
    · rcases mem_of_mem_addTs _ _ h' with h'' | h''
      · exact Or.inl h''
      · exact Or.inr ⟨x, List.mem_cons_self x L, h''⟩
    · exact Or.inr ⟨x', List.mem_cons_of_mem x hx', ha'⟩

/-- `addRow` as a block-insertion fold over the matching target rows. -/
theorem addRow_eq_foldB (sid tid jk jkt sEp tEp li : String) (conf : Rat)
    (tns : List (String × String)) (g : List RTriple) (sn : String × String) :
    addRow sid tid jk jkt sEp tEp li conf tns g sn =
      (tns.filter (fun tn => tn.2 == sn.2)).foldl
        (fun g tn => addTs g (assertionTriples sid tid jk jkt sEp tEp li conf sn.1 tn.1 sn.2)) g := rfl

/-- Generic: folding any pointwise-monotone update preserves membership. -/
theorem mem_foldl_of_mono {α : Type} (f : List RTriple → α → List RTriple)
    (hf : ∀ (g : List RTriple) (x : α) (a : RTriple), a ∈ g → a ∈ f g x)
    {a : RTriple} (L : List α) :
    ∀ g : List RTriple, a ∈ g → a ∈ L.foldl f g := by
  induction L with
  | nil => intro g ha; exact ha
  | cons x L ih =>
    intro g ha
    exact ih _ (hf g x a ha)

/-- `addRow` keeps existing triples. -/
theorem mem_addRow_of_mem (sid tid jk jkt sEp tEp li : String) (conf : Rat)
    (tns : List (String × String)) (sn : String × String) {a : RTriple}
    (g : List RTriple) (ha : a ∈ g) :
    a ∈ addRow sid tid jk jkt sEp tEp li conf tns g sn := by
  rw [addRow_eq_foldB]
  exact mem_foldB_of_mem _ _ g ha

/-! ## Claim C4: duplicate literal occurrences collapse in the output graph -/

/-- Claim C4 counterexample: the source entity `s1` carries two raw literal
values (`"MONDO:0000001"` and `"MONDO_0000001"`) that normalize to the same
canonical token, and one target entity matches.  The claim predicts one
assertion per literal occurrence (two assertions); the built linkset contains
exactly one `LinkAssertion`, because the assertion IRI depends only on the
node pair and join key, and `rdflib.Graph.add` has set semantics. -/
theorem duplicate_assertions_are_deduped_cex :
    assertionCount (okGraph (build_linkset (ctxMondo "g1" "http://ep1")
        (ctxMondo "g2" "http://ep2") fetchDup "MONDO" 1)) = 1 ∧
    (build_linkset (ctxMondo "g1" "http://ep1")
        (ctxMondo "g2" "http://ep2") fetchDup "MONDO" 1).isOk = true := by
  constructor
  · decide
  · decide

/-- Claim C4 amended: the probe loop runs once per literal occurrence, but a
source row occurring twice (one entity with two raw literals normalizing to
the same canonical token yields two identical `(iri, canonical)` rows)
contributes nothing on its second occurrence: all its triples, including the
assertion IRI built only from `(source node, target node, join key)`, are
already in the set-semantics graph.  The built graph equals the one built
without the duplicate occurrence. -/
theorem duplicate_source_rows_collapse (sid tid jk jkt sEp tEp li : String)
    (conf : Rat) (pre mid post : List (String × String)) (x : String × String)
    (tns : List (String × String)) (g0 : List RTriple) :
    matchAndAdd sid tid jk jkt sEp tEp li conf (pre ++ x :: mid ++ x :: post) tns g0 =
      matchAndAdd sid tid jk jkt sEp tEp li conf (pre ++ x :: mid ++ post) tns g0 := by
  have hmono : ∀ (g : List RTriple) (x' : String × String) (a : RTriple),
      a ∈ g → a ∈ addRow sid tid jk jkt sEp tEp li conf tns g x' :=
    fun g x' a ha => mem_addRow_of_mem _ _ _ _ _ _ _ _ _ _ _ ha
  have hkey : addRow sid tid jk jkt sEp tEp li conf tns
      (mid.foldl (addRow sid tid jk jkt sEp tEp li conf tns)
        (addRow sid tid jk jkt sEp tEp li conf tns
          (pre.foldl (addRow sid tid jk jkt sEp tEp li conf tns) g0) x)) x =
      mid.foldl (addRow sid tid jk jkt sEp tEp li conf tns)
        (addRow sid tid jk jkt sEp tEp li conf tns
          (pre.foldl (addRow sid tid jk jkt sEp tEp li conf tns) g0) x) := by
    have hblocks : ∀ tn ∈ tns.filter (fun tn => tn.2 == x.2),
        ∀ t ∈ assertionTriples sid tid jk jkt sEp tEp li conf x.1 tn.1 x.2,
          t ∈ mid.foldl (addRow sid tid jk jkt sEp tEp li conf tns)
            (addRow sid tid jk jkt sEp tEp li conf tns
              (pre.foldl (addRow sid tid jk jkt sEp tEp li conf tns) g0) x) := by
      intro tn htn t ht
      have h2 : t ∈ addRow sid tid jk jkt sEp tEp li conf tns
          (pre.foldl (addRow sid tid jk jkt sEp tEp li conf tns) g0) x := by
        rw [addRow_eq_foldB]
        exact mem_foldB_block _ _ _ tn htn ht
      exact mem_foldl_of_mono _ hmono mid _ h2
    rw [addRow_eq_foldB]
    exact foldB_eq_of_subset _ _ _ hblocks
  unfold matchAndAdd
  rw [List.foldl_append, List.foldl_append, List.foldl_cons, List.foldl_cons,
      List.foldl_append, List.foldl_append, List.foldl_cons, hkey]

/-- One step of the probe loop. -/
theorem matchAndAdd_cons (sid tid jk jkt sEp tEp li : String) (conf : Rat)
    (sn : String × String) (sns tns : List (String × String)) (g0 : List RTriple) :
    matchAndAdd sid tid jk jkt sEp tEp li conf (sn :: sns) tns g0 =
      matchAndAdd sid tid jk jkt sEp tEp li conf sns tns
        (addRow sid tid jk jkt sEp tEp li conf tns g0 sn) := rfl

/-- Every triple of the graph built by the probe loop is either initial or
belongs to the assertion block of some matched source/target row pair. -/
theorem mem_of_mem_matchAndAdd (sid tid jk jkt sEp tEp li : String) (conf : Rat)
    {a : RTriple} (sns tns : List (String × String)) :
    ∀ g0 : List RTriple,
      a ∈ matchAndAdd sid tid jk jkt sEp tEp li conf sns tns g0 →
      a ∈ g0 ∨ ∃ sn ∈ sns, ∃ tn ∈ tns.filter (fun tn => tn.2 == sn.2),
        a ∈ assertionTriples sid tid jk jkt sEp tEp li conf sn.1 tn.1 sn.2 := by
  induction sns with
  | nil => intro g0 h; exact Or.inl h
  | cons sn sns ih =>
    intro g0 h
    rw [matchAndAdd_cons] at h
    rcases ih _ h with h' | ⟨sn', hsn', tn', htn', ha'⟩
    · rw [addRow_eq_foldB] at h'
      rcases mem_of_mem_foldB _ _ _ h' with h'' | ⟨tn, htn, ha⟩
      · exact Or.inl h''
      · exact Or.inr ⟨sn, List.mem_cons_self sn sns, tn, htn, ha⟩
    · exact Or.inr ⟨sn', List.mem_cons_of_mem sn hsn', tn', htn', ha'⟩

/-- A successful `build_linkset` result is the probe-loop graph over some
source/target node lists, started from the linkset-level triples. -/
theorem build_linkset_ok_shape (src tgt : GlobalContext) (f : Fetch)
    (jk : String) (conf : Rat) (g : List RTriple)
    (hb : build_linkset src tgt f jk conf = .ok g) :
    ∃ sns tns : List (String × String),
      g = matchAndAdd src.graph_id tgt.graph_id jk (joinKeyTypeIri jk)
            src.endpoint tgt.endpoint (linksetIriOf src.graph_id tgt.graph_id jk)
            conf sns tns (initialGraph src tgt jk) := by
  unfold build_linkset at hb
  split at hb
  · split at hb
    · exact absurd hb (by simp)
    · split at hb
      · exact absurd hb (by simp)
      · exact ⟨_, _, (Except.ok.inj hb).symm⟩
  · exact absurd hb (by simp)

/-- The linkset-level triples carry only linkset-level predicates. -/
theorem linksetTriples_pred_mem {t : RTriple} {li sid tid sEp tEp jk : String}
    (h : t ∈ linksetTriples li sid tid sEp tEp jk) :
    t.2.1 ∈ [rdfTypeP, dctTitleP, subjectsTargetP, objectsTargetP, linkPredicateP] := by
  simp only [linksetTriples, List.mem_cons, List.not_mem_nil, or_false] at h
  rcases h with rfl | rfl | rfl | rfl | rfl <;> simp

/-- Anatomy of an assertion block: the `confidence` triple carries exactly the
configured confidence, the `sourceGraph` triple the source endpoint, and the
`targetGraph` triple the target endpoint. -/
theorem assertionTriples_anatomy {t : RTriple} {sid tid jk jkt sEp tEp li : String}
    {conf : Rat} {sIri tIri sVal : String}
    (h : t ∈ assertionTriples sid tid jk jkt sEp tEp li conf sIri tIri sVal) :
    (t.2.1 = confidenceP → t.2.2 = RNode.rat conf) ∧
    (t.2.1 = sourceGraphP → t.2.2 = RNode.iri sEp) ∧
    (t.2.1 = targetGraphP → t.2.2 = RNode.iri tEp) := by
  simp only [assertionTriples, List.mem_cons, List.not_mem_nil, or_false] at h
  rcases h with rfl | rfl | rfl | rfl | rfl | rfl | rfl | rfl | rfl <;>
    refine ⟨fun hc => ?_, fun hc => ?_, fun hc => ?_⟩ <;>
    first
      | rfl
      | (simp only [rdfTypeP, sourceNodeP, targetNodeP, sourceGraphP, targetGraphP,
          joinKeyTypeP, joinKeyValueP, confidenceP, inLinksetP] at hc
         exact absurd hc (by decide))

/-- Membership in a successfully built linkset decomposes into the five
linkset-level triples or an assertion block of a matched row pair. -/
theorem mem_built_graph {src tgt : GlobalContext} {f : Fetch} {jk : String}
    {conf : Rat} {g : List RTriple} {t : RTriple}
    (hb : build_linkset src tgt f jk conf = .ok g) (htg : t ∈ g) :
    t ∈ linksetTriples (linksetIriOf src.graph_id tgt.graph_id jk)
        src.graph_id tgt.graph_id src.endpoint tgt.endpoint jk ∨
    ∃ sn tn : String × String,
      t ∈ assertionTriples src.graph_id tgt.graph_id jk (joinKeyTypeIri jk)
        src.endpoint tgt.endpoint (linksetIriOf src.graph_id tgt.graph_id jk)
        conf sn.1 tn.1 sn.2 := by
  rcases build_linkset_ok_shape _ _ _ _ _ _ hb with ⟨sns, tns, rfl⟩
  rcases mem_of_mem_matchAndAdd _ _ _ _ _ _ _ _ _ _ _ htg with h0 | ⟨sn, _, tn, _, hblk⟩
  · unfold initialGraph at h0
    rcases mem_of_mem_addTs _ _ h0 with h1 | h1
    · cases h1
    · exact Or.inl h1
  · exact Or.inr ⟨sn, tn, hblk⟩

/-! ## Claim C5: confidence values -/

/-- Claim C5 counterexample: `build_linkset` stores the caller's confidence
argument verbatim, with no clamping; a call with confidence `2` emits an
assertion whose confidence is `2`, outside `[0, 1]`. -/
theorem confidence_out_of_range_cex :
    confidencesOf (okGraph (build_linkset (ctxMondo "g1" "http://ep1")
        (ctxMondo "g2" "http://ep2") fetchOne "MONDO" 2)) = [2] ∧
    ¬ ((2 : Rat) ≤ 1) := by
  constructor
  · decide
  · decide

/-- Claim C5 amended: every confidence carried by an assertion of a built
linkset equals the caller's confidence argument; in particular, with the
default argument `1.0` (the one used by every in-repo caller) every
confidence lies in `[0, 1]`.  The value is not clamped, so an out-of-range
argument is emitted verbatim. -/
theorem confidence_is_the_argument (src tgt : GlobalContext) (f : Fetch)
    (jk : String) (conf : Rat) (g : List RTriple) (q : Rat)
    (hb : build_linkset src tgt f jk conf = .ok g) (hq : q ∈ confidencesOf g) :
    q = conf ∧ (conf = 1 → 0 ≤ q ∧ q ≤ 1) := by
  suffices h : q = conf by
    refine ⟨h, fun h1 => ?_⟩
    rw [h, h1]
    exact ⟨by norm_num, le_refl 1⟩
  rcases List.mem_filterMap.mp hq with ⟨t, htg, hsome⟩
  by_cases hc : t.2.1 = confidenceP
  case neg => rw [if_neg hc] at hsome; cases hsome
  rw [if_pos hc] at hsome
  rcases mem_built_graph hb htg with h1 | ⟨sn, tn, hblk⟩
  · have := linksetTriples_pred_mem h1
    rw [hc] at this
    exact absurd this (by decide)
  · have hconf := (assertionTriples_anatomy hblk).1 hc
    rw [hconf] at hsome
    exact (Option.some.inj hsome).symm

/-- Witness for the C5 amended theorem at the default confidence `1`. -/
theorem confidence_is_the_argument_witness :
    (1 : Rat) = 1 ∧ ((1 : Rat) = 1 → 0 ≤ (1 : Rat) ∧ (1 : Rat) ≤ 1) :=
  confidence_is_the_argument (ctxMondo "g1" "http://ep1") (ctxMondo "g2" "http://ep2")
    fetchOne "MONDO" 1
    (okGraph (build_linkset (ctxMondo "g1" "http://ep1") (ctxMondo "g2" "http://ep2")
      fetchOne "MONDO" 1))
    1 (by decide) (by decide)

/-! ## Claim C6: self-links -/

/-- Claim C6 counterexample: `build_linkset` never compares the two
endpoints; when the two context files carry the same endpoint, a matching
pair yields an assertion whose `sourceGraph` and `targetGraph` objects
coincide — a self-link in the claim's sense. -/
theorem self_link_when_endpoints_equal_cex :
    hasSelfLink (okGraph (build_linkset (ctxMondo "g1" "http://ep")
        (ctxMondo "g2" "http://ep") fetchOne "MONDO" 1)) = true := by decide

/-- Claim C6 amended: every assertion's `sourceGraph` object is the source
context's endpoint and its `targetGraph` object is the target context's
endpoint, so a built linkset contains no self-link whenever the two endpoints
differ; the builder itself performs no such check, so equal endpoints do
produce self-links. -/
theorem no_self_links_when_endpoints_differ (src tgt : GlobalContext) (f : Fetch)
    (jk : String) (conf : Rat) (g : List RTriple)
    (hne : src.endpoint ≠ tgt.endpoint)
    (hb : build_linkset src tgt f jk conf = .ok g) :
    hasSelfLink g = false := by
  cases hx : hasSelfLink g
  · rfl
  exfalso
  unfold hasSelfLink at hx
  rcases List.any_eq_true.mp hx with ⟨t1, ht1g, h1⟩
  simp only [Bool.and_eq_true, beq_iff_eq] at h1
  rcases h1 with ⟨h1p, h2⟩
  rcases List.any_eq_true.mp h2 with ⟨t2, ht2g, h3⟩
  simp only [Bool.and_eq_true, beq_iff_eq] at h3
  rcases h3 with ⟨⟨hsubj, h6⟩, h5⟩
  have hobj1 : t1.2.2 = RNode.iri src.endpoint := by
    rcases mem_built_graph hb ht1g with hl | ⟨sn, tn, hblk⟩
    · have := linksetTriples_pred_mem hl
      rw [h1p] at this
      exact absurd this (by decide)
    · exact (assertionTriples_anatomy hblk).2.1 h1p
  have hobj2 : t2.2.2 = RNode.iri tgt.endpoint := by
    rcases mem_built_graph hb ht2g with hl | ⟨sn, tn, hblk⟩
    · have := linksetTriples_pred_mem hl
      rw [h6] at this
      exact absurd this (by decide)
    · exact (assertionTriples_anatomy hblk).2.2 h6
  rw [hobj1, hobj2] at h5
  exact hne (RNode.iri.inj h5).symm

/-- Witness for the C6 amended theorem: with distinct endpoints the built
linkset has no self-link. -/
theorem no_self_links_when_endpoints_differ_witness :
    hasSelfLink (okGraph (build_linkset (ctxMondo "g1" "http://ep1")
        (ctxMondo "g2" "http://ep2") fetchOne "MONDO" 1)) = false :=
  no_self_links_when_endpoints_differ (ctxMondo "g1" "http://ep1")
    (ctxMondo "g2" "http://ep2") fetchOne "MONDO" 1
    (okGraph (build_linkset (ctxMondo "g1" "http://ep1") (ctxMondo "g2" "http://ep2")
      fetchOne "MONDO" 1))
    (by decide) (by decide)

/-! ## Claim C1: query failures and the per-key build -/

/-- Claim C1 counterexample: when the source-side remote query raises (here a
timeout), `build_linkset` does not treat that side as empty and build the
linkset from the remaining data — it has no handler, so the error propagates
out of the per-key build step instead of an `.ok` linkset. -/
theorem query_failure_aborts_build_cex :
    build_linkset (ctxMondo "g1" "http://ep1") (ctxMondo "g2" "http://ep2")
      fetchErr "MONDO" 1 = .error "timeout" := by decide

/-- Auxiliary: `filterMap` ignores all occurrences of an element the function
maps to `none`. -/
theorem filterMap_drop_none {α β : Type} [DecidableEq α] (F : α → Option β)
    (k : α) (hFk : F k = none) (L : List α) :
    L.filterMap F = (L.filter (fun x => ¬ (x = k))).filterMap F := by
  induction L with
  | nil => rfl
  | cons a t ih =>
    by_cases hek : a = k
    · subst hek
      simp only [List.filterMap_cons, hFk, List.filter_cons]
      simp [ih]
    · rw [List.filter_cons]
      have hd : decide (¬ (a = k)) = true := by simp [hek]
      rw [hd, if_pos rfl]
      rw [List.filterMap_cons, List.filterMap_cons]
      cases hFa : F a <;> simp [hFa, ih]

/-- Claim C1 amended: a remote query failure makes `build_linkset` raise for
that join key; the batch generator's per-key `try/except/continue` catches
it, so the key is skipped — no linkset is built for it — and the run over a
key list is exactly the run over the list with the failing key removed; a
failing key never aborts the remaining keys. -/
theorem failing_key_skipped_others_built (src tgt : GlobalContext)
    (fetch : String → Fetch) (keys : List String) (k e : String)
    (hk : build_linkset src tgt (fetch k) k 1 = .error e) :
    generate_for_pair src tgt fetch keys =
      generate_for_pair src tgt fetch (keys.filter (fun x => ¬ (x = k))) := by
  unfold generate_for_pair
  apply filterMap_drop_none
  simp [hk]

/-- Witness for the C1 amended theorem: the `MONDO` query times out, the
`GSE` key is still processed. -/
theorem failing_key_skipped_others_built_witness :
    generate_for_pair (ctxMondo "g1" "http://ep1") (ctxMondo "g2" "http://ep2")
        fetchByKey ["MONDO", "GSE"] =
      generate_for_pair (ctxMondo "g1" "http://ep1") (ctxMondo "g2" "http://ep2")
        fetchByKey (["MONDO", "GSE"].filter (fun x => ¬ (x = "MONDO"))) :=
  failing_key_skipped_others_built (ctxMondo "g1" "http://ep1")
    (ctxMondo "g2" "http://ep2") fetchByKey ["MONDO", "GSE"] "MONDO" "timeout"
    (by decide)

/-! ## Character-class facts -/

/-- A letter is not whitespace. -/
theorem alpha_not_ws {c : Char} (h : c.isAlpha = true) : c.isWhitespace = false := by
  cases hw : c.isWhitespace
  · rfl
  · exfalso
    simp only [Char.isWhitespace, Bool.or_eq_true, decide_eq_true_eq] at hw
    rcases hw with ((rfl | rfl) | rfl) | rfl <;> exact absurd h (by decide)

/-- A digit is not whitespace. -/
theorem digit_not_ws {c : Char} (h : c.isDigit = true) : c.isWhitespace = false := by
  cases hw : c.isWhitespace
  · rfl
  · exfalso
    simp only [Char.isWhitespace, Bool.or_eq_true, decide_eq_true_eq] at hw
    rcases hw with ((rfl | rfl) | rfl) | rfl <;> exact absurd h (by decide)

/-- A letter is not a delimiter. -/
theorem alpha_not_delim {c : Char} (h : c.isAlpha = true) : isDelim c = false := by
  cases hd : isDelim c
  · rfl
  · exfalso
    simp only [isDelim, Bool.or_eq_true, beq_iff_eq] at hd
    rcases hd with rfl | rfl <;> exact absurd h (by decide)

/-- A digit is not a delimiter. -/
theorem digit_not_delim {c : Char} (h : c.isDigit = true) : isDelim c = false := by
  cases hd : isDelim c
  · rfl
  · exfalso
    simp only [isDelim, Bool.or_eq_true, beq_iff_eq] at hd
    rcases hd with rfl | rfl <;> exact absurd h (by decide)

/-- A letter is not a colon. -/
theorem alpha_ne_colon {c : Char} (h : c.isAlpha = true) : ¬ (c = ':') := by
  intro hc; subst hc; exact absurd h (by decide)

/-! ## `dropPfx?` and scanner lemmas -/

/-- Dropping a literal from its own extension. -/
theorem dropPfx?_append (a r : List Char) : dropPfx? a (a ++ r) = some r := by
  induction a with
  | nil => rfl
  | cons c a ih => simp [dropPfx?, ih]

/-- A successful literal drop decomposes the string. -/
theorem eq_of_dropPfx? : ∀ {a s r : List Char}, dropPfx? a s = some r → s = a ++ r := by
  intro a
  induction a with
  | nil => intro s r h; cases h; rfl
  | cons c a ih =>
    intro s r h
    cases s with
    | nil => cases h
    | cons b bs =>
      unfold dropPfx? at h
      split at h
      · rename_i hbc
        subst hbc
        rw [List.cons_append]
        exact congrArg _ (ih h)
      · cases h

/-- A successful digit extraction: digits are nonempty, all digits, and the
head of the string splits off. -/
theorem digitsOrNone_some {t ds : List Char} (h : digitsOrNone t = some ds) :
    ds ≠ [] ∧ (∀ c ∈ ds, c.isDigit = true) ∧ t = ds ++ t.dropWhile Char.isDigit := by
  unfold digitsOrNone at h
  split at h
  · cases h
  · rename_i hne
    cases h
    exact ⟨hne, fun c hc => List.mem_takeWhile_imp hc,
      (List.takeWhile_append_dropWhile Char.isDigit t).symm⟩

/-- Extracting from a nonempty all-digit run returns the run itself. -/
theorem digitsOrNone_all_digits {ds : List Char} (hne : ds ≠ [])
    (hdig : ∀ c ∈ ds, c.isDigit = true) : digitsOrNone ds = some ds := by
  unfold digitsOrNone
  have : ds.takeWhile Char.isDigit = ds := List.takeWhile_eq_self_iff.mpr hdig
  rw [this, if_neg hne]

/-- Extraction succeeds when the head is a digit. -/
theorem digitsOrNone_isSome_of_head {t : List Char} {d : Char}
    (hh : t.head? = some d) (hd : d.isDigit = true) : (digitsOrNone t).isSome := by
  cases t with
  | nil => cases hh
  | cons c t =>
    cases hh
    unfold digitsOrNone
    rw [List.takeWhile_cons, if_pos hd]
    simp

/-- `matchDD` on the canonical shape. -/
theorem matchDD_canonical (p ds : List Char) (hne : ds ≠ [])
    (hdig : ∀ c ∈ ds, c.isDigit = true) :
    matchDD p (p ++ ':' :: ds) = some ds := by
  unfold matchDD
  rw [dropPfx?_append]
  simp only [isDelim]
  rw [if_pos (by decide)]
  exact digitsOrNone_all_digits hne hdig

/-- `matchDD` never succeeds on the empty string. -/
theorem matchDD_nil (p : List Char) : matchDD p [] = none := by
  cases p <;> rfl

/-- A head match is in particular a leftmost match. -/
theorem searchDD_of_matchDD {p s ds : List Char} (h : matchDD p s = some ds) :
    searchDD p s = some ds := by
  cases s with
  | nil => rw [matchDD_nil] at h; cases h
  | cons c t =>
    unfold searchDD
    rw [h]

/-- Soundness of the leftmost `tok[:_](\d+)` scan: a success decomposes the
string into context, token, delimiter and a nonempty digit group. -/
theorem searchDD_sound {p : List Char} :
    ∀ {s ds : List Char}, searchDD p s = some ds →
      ∃ a c b, s = a ++ p ++ c :: (ds ++ b) ∧ isDelim c = true ∧
        ds ≠ [] ∧ (∀ x ∈ ds, x.isDigit = true) := by
  intro s
  induction s with
  | nil => intro ds h; cases h
  | cons x t ih =>
    intro ds h
    unfold searchDD at h
    split at h
    · rename_i hm
      cases h
      unfold matchDD at hm
      split at hm
      · rename_i rest c t' hdrop
        split at hm
        · rename_i hdel
          rcases digitsOrNone_some hm with ⟨hne, hdig, hsplit⟩
          refine ⟨[], c, t'.dropWhile Char.isDigit, ?_, hdel, hne, hdig⟩
          have := eq_of_dropPfx? hdrop
          rw [List.nil_append, this, ← hsplit]
        · cases hm
      · cases hm
    · rcases ih h with ⟨a, c, b, hs, hdel, hne, hdig⟩
      exact ⟨x :: a, c, b, by rw [hs]; rfl, hdel, hne, hdig⟩

/-- A successful scan returns a nonempty all-digit group. -/
theorem searchDD_digits {p s ds : List Char} (h : searchDD p s = some ds) :
    ds ≠ [] ∧ (∀ x ∈ ds, x.isDigit = true) := by
  rcases searchDD_sound h with ⟨_, _, _, _, _, hne, hdig⟩
  exact ⟨hne, hdig⟩

/-- Completeness of the leftmost scan: an occurrence of token, delimiter and
a leading digit guarantees a match somewhere. -/
theorem searchDD_complete {p : List Char} :
    ∀ {a : List Char} {c : Char} {t s : List Char} {d : Char},
      s = a ++ p ++ c :: t → isDelim c = true → t.head? = some d →
      d.isDigit = true → (searchDD p s).isSome := by
  intro a
  induction a with
  | nil =>
    intro c t s d hs hdel hh hd
    have hm : (matchDD p s).isSome := by
      unfold matchDD
      rw [hs, List.nil_append, dropPfx?_append]
      simp only [hdel, if_true]
      exact digitsOrNone_isSome_of_head hh hd
    rcases Option.isSome_iff_exists.mp hm with ⟨ds, hds⟩
    rw [searchDD_of_matchDD hds]
    rfl
  | cons x a ih =>
    intro c t s d hs hdel hh hd
    subst hs
    show (searchDD p (x :: (a ++ p ++ c :: t))).isSome
    unfold searchDD
    split
    · rfl
    · exact ih rfl hdel hh hd

/-! ## `str.strip` lemmas -/

/-- The first survivor of `dropWhile` fails the predicate. -/
theorem head_dropWhile_not (p : Char → Bool) :
    ∀ {l : List Char} {c : Char}, (l.dropWhile p).head? = some c → p c = false := by
  intro l
  induction l with
  | nil => intro c h; cases h
  | cons a t ih =>
    intro c h
    rw [List.dropWhile_cons] at h
    split at h
    · exact ih h
    · rename_i hpa
      cases h
      cases hb : p a
      · rfl
      · exact absurd hb hpa

/-- `dropWhile` is the identity when the head already fails the predicate. -/
theorem dropWhile_eq_self_of_head (p : Char → Bool) {l : List Char}
    (h : ∀ c, l.head? = some c → p c = false) : l.dropWhile p = l := by
  cases l with
  | nil => rfl
  | cons a t =>
    rw [List.dropWhile_cons, if_neg]
    rw [h a rfl]
    simp

/-- The last character of a stripped string is not whitespace. -/
theorem stripWs_getLast_not_ws {s : List Char} {c : Char}
    (h : (stripWs s).getLast? = some c) : c.isWhitespace = false := by
  unfold stripWs at h
  rw [List.getLast?_reverse] at h
  exact head_dropWhile_not _ h

/-- The first character of a stripped string is not whitespace. -/
theorem stripWs_head_not_ws {s : List Char} {c : Char}
    (h : (stripWs s).head? = some c) : c.isWhitespace = false := by
  unfold stripWs at h
  rw [List.head?_reverse] at h
  set u := s.dropWhile Char.isWhitespace with hu
  set D := u.reverse.dropWhile Char.isWhitespace with hD
  have hDne : D ≠ [] := by
    intro he
    rw [he] at h
    cases h
  have hsplit : u.reverse = u.reverse.takeWhile Char.isWhitespace ++ D :=
    (List.takeWhile_append_dropWhile Char.isWhitespace u.reverse).symm
  have : u.reverse.getLast? = D.getLast? := by
    rw [hsplit]
    exact List.getLast?_append_of_ne_nil _ hDne
  rw [List.getLast?_reverse] at this
  rw [← this] at h
  exact head_dropWhile_not _ h

/-- `strip` is the identity on a string with no whitespace at either end. -/
theorem stripWs_eq_self {s : List Char}
    (h1 : ∀ c, s.head? = some c → c.isWhitespace = false)
    (h2 : ∀ c, s.getLast? = some c → c.isWhitespace = false) : stripWs s = s := by
  unfold stripWs
  rw [dropWhile_eq_self_of_head _ h1]
  rw [dropWhile_eq_self_of_head _ (fun c hc => h2 c (by rwa [List.head?_reverse] at hc))]
  exact List.reverse_reverse s

/-- `strip` is idempotent. -/
theorem stripWs_idem (s : List Char) : stripWs (stripWs s) = stripWs s :=
  stripWs_eq_self (fun _ hc => stripWs_head_not_ws hc)
    (fun _ hc => stripWs_getLast_not_ws hc)

/-- A canonical token `tok ++ ':' ++ digits` needs no stripping. -/
theorem stripWs_canonical (p ds : List Char) (hp : ∀ c ∈ p, c.isAlpha = true)
    (hne : ds ≠ [])
    (hdig : ∀ c ∈ ds, c.isDigit = true) :
    stripWs (p ++ ':' :: ds) = p ++ ':' :: ds := by
  apply stripWs_eq_self
  · intro c hc
    cases p with
    | nil =>
      rw [List.nil_append] at hc
      cases hc
      decide
    | cons a q' =>
      rw [List.cons_append] at hc
      cases hc
      exact alpha_not_ws (hp _ (List.mem_cons_self _ _))
  · intro c hc
    rw [List.getLast?_append_of_ne_nil _ (by simp : (':' :: ds : List Char) ≠ [])] at hc
    rw [show (':' :: ds : List Char) = [':'] ++ ds by rfl] at hc
    rw [List.getLast?_append_of_ne_nil _ hne] at hc
    exact digit_not_ws (hdig c (List.mem_of_mem_getLast? hc))

/-- FixA: a canonical token `tok:digits` is a fixed point of normalization
against `tok` — the embedded-identifier rule re-extracts exactly the same
digits. -/
theorem normalizeL_canonical (p ds : List Char) (hp : ∀ c ∈ p, c.isAlpha = true)
    (hne : ds ≠ []) (hdig : ∀ c ∈ ds, c.isDigit = true) :
    normalizeL (p ++ ':' :: ds) p = p ++ ':' :: ds := by
  unfold normalizeL
  rw [stripWs_canonical p ds hp hne hdig]
  unfold normCore
  rw [searchDD_of_matchDD (matchDD_canonical p ds hne hdig)]

/-! ## Claim C10: entity-IRI mode value shape -/

/-- Claim C10: in entity-IRI mode (the selected predicate is the
`ENTITY_IRI` marker), both query functions return exactly the rows whose
entity IRI contains `tok[:_]digits`; every returned value is the canonical
token `"{tok}:{digits}"` for some nonempty digit run (normalizing the
synthesized token is the identity, by `normalizeL_canonical`); a row whose
IRI has no such digit run after the token is silently dropped. -/
theorem entity_iri_mode_values (ctx : GlobalContext)
    (rows : List (String × String)) (jk : String) (preferred : Option String)
    (info : IdentifierInfo) (pat : IdentifierPattern) (pr : String)
    (hinfo : ctx.identifier_info = some info)
    (hpat : info.patterns.find? (fun pt => pt.pfx == jk) = some pat)
    (hsel : selectedPredicate info pat preferred = some pr)
    (hei : isEntityIriPred pr = true)
    (halpha : ∀ c ∈ jk.data, c.isAlpha = true) :
    query_source_nodes ctx (.ok rows) jk preferred none = .ok (entityIriNodes jk rows) ∧
    query_target_nodes ctx (.ok rows) jk preferred none = .ok (entityIriNodes jk rows) ∧
    (∀ nd ∈ entityIriNodes jk rows,
      ∃ ds : List Char, ds ≠ [] ∧ (∀ c ∈ ds, c.isDigit = true) ∧
        nd.2 = String.mk (jk.data ++ ':' :: ds)) ∧
    (∀ (row : String × String) (rest : List (String × String)),
      searchDD jk.data row.1.data = none →
      entityIriNodes jk (row :: rest) = entityIriNodes jk rest) := by
  refine ⟨?_, ?_, ?_, ?_⟩
  · simp [query_source_nodes, hinfo, hpat, hsel, hei]
  · simp [query_target_nodes, hinfo, hpat, hsel, hei]
  · intro nd hnd
    rcases List.mem_filterMap.mp hnd with ⟨row, _, hF⟩
    cases hs : searchDD jk.data row.1.data with
    | none => rw [hs] at hF; cases hF
    | some ds =>
      rw [hs] at hF
      rcases searchDD_digits hs with ⟨hne, hdig⟩
      refine ⟨ds, hne, hdig, ?_⟩
      have : nd = (row.1, normalize_join_value (String.mk (jk.data ++ ':' :: ds)) jk) :=
        (Option.some.inj hF).symm
      rw [this]
      show normalize_join_value (String.mk (jk.data ++ ':' :: ds)) jk =
        String.mk (jk.data ++ ':' :: ds)
      unfold normalize_join_value
      show String.mk (normalizeL (jk.data ++ ':' :: ds) jk.data) = _
      rw [normalizeL_canonical jk.data ds halpha hne hdig]
  · intro row rest hs
    unfold entityIriNodes
    rw [List.filterMap_cons, hs]

/-- Witness for C10: the `MONDO` ontology-style fixture; the IRI ending in
`MONDO_0000001` is kept with value `"MONDO:0000001"`, the IRI ending in
`MONDO_misc` is dropped. -/
theorem entity_iri_mode_values_witness :
    query_source_nodes (ctxEntityIri "g1" "http://ep1") (.ok entityRows) "MONDO"
        (some "ENTITY_IRI") none = .ok (entityIriNodes "MONDO" entityRows) ∧
    query_target_nodes (ctxEntityIri "g1" "http://ep1") (.ok entityRows) "MONDO"
        (some "ENTITY_IRI") none = .ok (entityIriNodes "MONDO" entityRows) ∧
    (∀ nd ∈ entityIriNodes "MONDO" entityRows,
      ∃ ds : List Char, ds ≠ [] ∧ (∀ c ∈ ds, c.isDigit = true) ∧
        nd.2 = String.mk ("MONDO".data ++ ':' :: ds)) ∧
    (∀ (row : String × String) (rest : List (String × String)),
      searchDD "MONDO".data row.1.data = none →
      entityIriNodes "MONDO" (row :: rest) = entityIriNodes "MONDO" rest) :=
  entity_iri_mode_values (ctxEntityIri "g1" "http://ep1") entityRows "MONDO"
    (some "ENTITY_IRI") ⟨[], [mondoIriPattern]⟩ mondoIriPattern "ENTITY_IRI"
    rfl (by decide) (by decide) (by decide) (by decide)

/-! ## Further scanner and split lemmas for the stabilization theorem -/

/-- Soundness of the `tok[:_]?(\d+)` scan: the group is a nonempty digit run. -/
theorem searchOptDD_digits {p : List Char} :
    ∀ {s ds : List Char}, searchOptDD p s = some ds →
      ds ≠ [] ∧ (∀ x ∈ ds, x.isDigit = true) := by
  intro s
  induction s with
  | nil => intro ds h; cases h
  | cons x t ih =>
    intro ds h
    unfold searchOptDD at h
    split at h
    · rename_i hm
      cases h
      unfold matchOptDD at hm
      split at hm
      · split at hm
        · rcases digitsOrNone_some hm with ⟨hne, hdig, _⟩
          exact ⟨hne, hdig⟩
        · rcases digitsOrNone_some hm with ⟨hne, hdig, _⟩
          exact ⟨hne, hdig⟩
      · cases hm
    · exact ih h

/-- Soundness of the `lit(\d+)` scan: an occurrence of the literal and a
nonempty digit group. -/
theorem searchLD_sound {lit : List Char} :
    ∀ {s ds : List Char}, searchLD lit s = some ds →
      (∃ a r, s = a ++ lit ++ r) ∧ ds ≠ [] ∧ (∀ x ∈ ds, x.isDigit = true) := by
  intro s
  induction s with
  | nil => intro ds h; cases h
  | cons x t ih =>
    intro ds h
    unfold searchLD at h
    split at h
    · rename_i hm
      cases h
      unfold matchLD at hm
      split at hm
      · rename_i rest hdrop
        rcases digitsOrNone_some hm with ⟨hne, hdig, _⟩
        exact ⟨⟨[], rest, by rw [List.nil_append]; exact eq_of_dropPfx? hdrop⟩, hne, hdig⟩
      · cases hm
    · rcases ih h with ⟨⟨a, r, hs⟩, hne, hdig⟩
      exact ⟨⟨x :: a, r, by rw [hs]; rfl⟩, hne, hdig⟩

/-- A string beginning with the literal contains it. -/
theorem containsSub_of_dropPfx {n s : List Char} (h : (dropPfx? n s).isSome = true) :
    containsSub n s = true := by
  cases s with
  | nil =>
    cases n with
    | nil => rfl
    | cons c cs => simp [dropPfx?] at h
  | cons c t =>
    unfold containsSub
    rw [Bool.or_eq_true]
    exact Or.inl h

/-- Splitting a string at its first colon. -/
theorem colon_split {w : List Char} (h : ':' ∈ w) :
    ∃ post, w.dropWhile notColon = ':' :: post ∧
      w = w.takeWhile notColon ++ ':' :: post := by
  have hne : w.dropWhile notColon ≠ [] := by
    intro he
    have hall := List.dropWhile_eq_nil_iff.mp he
    have := hall ':' h
    simp [notColon] at this
  cases hD : w.dropWhile notColon with
  | nil => exact absurd hD hne
  | cons c post =>
    have hc : notColon c = false := head_dropWhile_not _ (by rw [hD]; rfl)
    have hcc : c = ':' := by
      simp only [notColon, Bool.not_eq_false', beq_iff_eq] at hc
      exact hc
    subst hcc
    refine ⟨post, rfl, ?_⟩
    conv_lhs => rw [← List.takeWhile_append_dropWhile notColon w]
    rw [hD]

/-- `split(':', 1)` of `tok ++ ':' ++ post` for a colon-free token. -/
theorem takeWhile_notColon_append {p post : List Char}
    (hp : ∀ c ∈ p, notColon c = true) :
    (p ++ ':' :: post).takeWhile notColon = p ∧
    (p ++ ':' :: post).dropWhile notColon = ':' :: post := by
  induction p with
  | nil =>
    constructor
    · rw [List.nil_append, List.takeWhile_cons]
      norm_num [notColon]
    · rw [List.nil_append, List.dropWhile_cons]
      norm_num [notColon]
  | cons a q ih =>
    have ha : notColon a = true := hp a (List.mem_cons_self a q)
    rcases ih (fun c hc => hp c (List.mem_cons_of_mem a hc)) with ⟨ht, hd⟩
    constructor
    · rw [List.cons_append, List.takeWhile_cons, ha, if_pos rfl, ht]
    · rw [List.cons_append, List.dropWhile_cons, ha, if_pos rfl, hd]

/-- A letter is not a colon, `Bool` form. -/
theorem alpha_notColon {c : Char} (h : c.isAlpha = true) : notColon c = true := by
  simp only [notColon, Bool.not_eq_true', beq_eq_false_iff_ne, ne_eq]
  exact alpha_ne_colon h

/-- `strip` is the identity on a token followed by a whitespace-free tail. -/
theorem stripWs_token_append {p rest : List Char}
    (hp : ∀ c ∈ p, c.isAlpha = true) (hpne : p ≠ [])
    (hrest : ∀ c, rest.getLast? = some c → c.isWhitespace = false) :
    stripWs (p ++ rest) = p ++ rest := by
  apply stripWs_eq_self
  · intro c hc
    cases p with
    | nil => exact absurd rfl hpne
    | cons a q =>
      rw [List.cons_append] at hc
      cases hc
      exact alpha_not_ws (hp _ (List.mem_cons_self _ _))
  · intro c hc
    cases hrs : rest with
    | nil =>
      rw [hrs, List.append_nil] at hc
      exact alpha_not_ws (hp c (List.mem_of_mem_getLast? hc))
    | cons r rs =>
      rw [List.getLast?_append_of_ne_nil _ (by rw [hrs]; simp)] at hc
      exact hrest c hc

/-- The last element survives `drop`. -/
theorem getLast?_drop_eq {l : List Char} {n : Nat} (h : l.drop n ≠ []) :
    (l.drop n).getLast? = l.getLast? := by
  conv_rhs => rw [← List.take_append_drop n l]
  rw [List.getLast?_append_of_ne_nil _ h]

/-- A suffix of `"NCBITaxon"` is a computable drop of it. -/
theorem eq_drop_of_ncbi_suffix {a p : List Char} (h : ncbiT = a ++ p) :
    p = ncbiT.drop (ncbiT.length - p.length) := by
  have hlen : ncbiT.length = a.length + p.length := by rw [h, List.length_append]
  have ha : a.length = ncbiT.length - p.length := by omega
  rw [← ha, h, List.drop_left]

/-- A token of the upper-casing branch is never a suffix of `"NCBITaxon"`. -/
theorem casePfxs_not_ncbi_suffix {p a : List Char} (hm : p ∈ casePfxs)
    (ha : ncbiT = a ++ p) : False := by
  have hd := eq_drop_of_ncbi_suffix ha
  simp only [casePfxs, List.mem_cons, List.not_mem_nil, or_false] at hm
  rcases hm with rfl | rfl | rfl <;> exact absurd hd (by decide)

/-- The only token of the colon branch that is a suffix of `"NCBITaxon"` is
`"NCBITaxon"` itself. -/
theorem colonPfxs_ncbi_suffix {p a : List Char} (hm : p ∈ colonPfxs)
    (ha : ncbiT = a ++ p) : p = ncbiT := by
  have hd := eq_drop_of_ncbi_suffix ha
  simp only [colonPfxs, List.mem_cons, List.not_mem_nil, or_false] at hm
  rcases hm with rfl | rfl | rfl | rfl | rfl | rfl | rfl | rfl | rfl | rfl | rfl <;>
    first
      | rfl
      | exact absurd hd (by decide)

/-- An upper-casing-branch token is not `"UniProtKB"`. -/
theorem casePfxs_ne_uni {p : List Char} (hm : p ∈ casePfxs) : ¬ (p = uniPKB) := by
  intro he
  subst he
  exact absurd hm (by decide)

/-- A colon-branch token is not in the upper-casing branch. -/
theorem colonPfxs_not_case {p : List Char} (hm : p ∈ colonPfxs) :
    ¬ (p ∈ casePfxs) := by
  intro hc
  simp only [colonPfxs, List.mem_cons, List.not_mem_nil, or_false] at hm
  rcases hm with rfl | rfl | rfl | rfl | rfl | rfl | rfl | rfl | rfl | rfl | rfl <;>
    exact absurd hc (by decide)

/-- Tokens of either branch are nonempty. -/
theorem casePfxs_ne_nil {p : List Char} (hm : p ∈ casePfxs) : p ≠ [] := by
  intro he
  subst he
  exact absurd hm (by decide)

theorem colonPfxs_ne_nil {p : List Char} (hm : p ∈ colonPfxs) : p ≠ [] := by
  intro he
  subst he
  exact absurd hm (by decide)

/-- A colon-branch token starts with a letter other than `'h'`, so no value
it heads starts with `"http"`. -/
theorem colonPfxs_head {p : List Char} (hm : p ∈ colonPfxs) :
    ∃ c0 p', p = c0 :: p' ∧ ¬ (c0 = 'h') := by
  simp only [colonPfxs, List.mem_cons, List.not_mem_nil, or_false] at hm
  rcases hm with rfl | rfl | rfl | rfl | rfl | rfl | rfl | rfl | rfl | rfl | rfl <;>
    exact ⟨_, _, rfl, by decide⟩

/-- `startswith("http")` fails on a string whose head is not `'h'`. -/
theorem isPfxB_http_head {c : Char} {t : List Char} (hc : ¬ (c = 'h')) :
    isPfxB httpL (c :: t) = false := by
  show (dropPfx? ('h' :: 't' :: 't' :: 'p' :: []) (c :: t)).isSome = false
  unfold dropPfx?
  rw [if_neg (fun he => hc he.symm)]
  rfl

/-- Position analysis on a canonical taxonomy token: a successful
`tok[:_]digits` scan over `"NCBITaxon:" ++ digits` must place its delimiter
at the single colon, so the (letters-only) token is a suffix of
`"NCBITaxon"`. -/
theorem searchDD_on_ncbi_canonical {p ds ds' : List Char}
    (hdig : ∀ c ∈ ds, c.isDigit = true)
    (h : searchDD p (ncbiT ++ ':' :: ds) = some ds') :
    ∃ a, ncbiT = a ++ p := by
  rcases searchDD_sound h with ⟨a, c, b, heq, hdel, _, _⟩
  have hL : ncbiT ++ ':' :: ds = (a ++ p) ++ (c :: (ds' ++ b)) := by
    rw [heq, List.append_assoc]
  have hck : (ncbiT ++ ':' :: ds)[(a ++ p).length]? = some c := by
    rw [hL]
    have h0 : ((a ++ p) ++ (c :: (ds' ++ b)))[(a ++ p).length + 0]? =
        (c :: (ds' ++ b))[0]? := by
      rw [List.getElem?_append]
      rw [if_neg (by omega)]
      congr 1
      omega
    simpa using h0
  have hlen9 : ncbiT.length = 9 := by decide
  rcases Nat.lt_trichotomy (a ++ p).length 9 with hk | hk | hk
  · exfalso
    rw [List.getElem?_append] at hck
    rw [if_pos (by rw [hlen9]; exact hk)] at hck
    have hcne : c ∈ ncbiT := List.getElem?_mem hck
    have : c.isAlpha = true := by
      have hall : ∀ x ∈ ncbiT, x.isAlpha = true := by decide
      exact hall c hcne
    rw [alpha_not_delim this] at hdel
    cases hdel
  · have h1 : (a ++ p) = (ncbiT ++ ':' :: ds).take (a ++ p).length := by
      rw [hL]
      exact (List.take_left (a ++ p) _).symm
    rw [hk] at h1
    rw [List.take_left' hlen9] at h1
    exact ⟨a, h1.symm⟩
  · exfalso
    rw [List.getElem?_append] at hck
    rw [if_neg (by omega)] at hck
    obtain ⟨j, hj⟩ : ∃ j, (a ++ p).length - ncbiT.length = j + 1 := by
      refine ⟨(a ++ p).length - ncbiT.length - 1, ?_⟩
      omega
    rw [hj, List.getElem?_cons_succ] at hck
    have hcds : c ∈ ds := List.getElem?_mem hck
    rw [digit_not_delim (hdig c hcds)] at hdel
    cases hdel

/-- FixB: a canonical taxonomy token `"NCBITaxon:" ++ digits` is a fixed
point of normalization against any token whose `tok[:_]digits` scan fails on
it: the taxonomy rewrite rule re-extracts the same digits. -/
theorem normalizeL_ncbi_fixed {p ds : List Char} (hne : ds ≠ [])
    (hdig : ∀ c ∈ ds, c.isDigit = true)
    (hnone : searchDD p (ncbiT ++ ':' :: ds) = none) :
    normalizeL (ncbiT ++ ':' :: ds) p = ncbiT ++ ':' :: ds := by
  unfold normalizeL
  rw [stripWs_canonical ncbiT ds (by decide) hne hdig]
  unfold normCore
  rw [hnone]
  have h2 : (if p = uniPKB ∧ containsSub uniTaxNeedle (ncbiT ++ ':' :: ds)
      then searchLD taxSeg (ncbiT ++ ':' :: ds) else none) = none := by
    split
    · cases hLD : searchLD taxSeg (ncbiT ++ ':' :: ds) with
      | none => rfl
      | some ds2 =>
        exfalso
        rcases searchLD_sound hLD with ⟨⟨a, r, hsplit⟩, _, _⟩
        have hm : '/' ∈ ncbiT ++ ':' :: ds := by
          rw [hsplit]
          refine List.mem_append.mpr (Or.inl ?_)
          refine List.mem_append.mpr (Or.inr ?_)
          decide
        rcases List.mem_append.mp hm with hm1 | hm2
        · exact absurd hm1 (by decide)
        · rcases List.mem_cons.mp hm2 with hm3 | hm4
          · exact absurd hm3 (by decide)
          · have := hdig _ hm4
            exact absurd this (by decide)
    · rfl
  rw [h2]
  have h3 : (if containsSub ncbiT (ncbiT ++ ':' :: ds) ∨ p = uniPKB
      then searchDD ncbiT (ncbiT ++ ':' :: ds) else none) = some ds := by
    rw [if_pos (Or.inl (containsSub_of_dropPfx (by rw [dropPfx?_append]; rfl)))]
    exact searchDD_of_matchDD (matchDD_canonical ncbiT ds hne hdig)
  rw [h3]

/-- One further normalization pass fixes a canonical taxonomy token: either
the token scan fails and the string is already fixed, or it succeeds and
produces a canonical `tok:digits` token, which is fixed. -/
theorem pass_on_ncbi (p ds : List Char) (hp : ∀ c ∈ p, c.isAlpha = true)
    (hne : ds ≠ []) (hdig : ∀ c ∈ ds, c.isDigit = true) :
    normalizeL (normalizeL (ncbiT ++ ':' :: ds) p) p =
      normalizeL (ncbiT ++ ':' :: ds) p := by
  rcases h8 : searchDD p (ncbiT ++ ':' :: ds) with _ | ds'
  · have hB := normalizeL_ncbi_fixed hne hdig h8
    rw [hB]
    exact hB
  · have hval : normalizeL (ncbiT ++ ':' :: ds) p = p ++ ':' :: ds' := by
      unfold normalizeL
      rw [stripWs_canonical ncbiT ds (by decide) hne hdig]
      unfold normCore
      rw [h8]
    rcases searchDD_digits h8 with ⟨hne', hdig'⟩
    rw [hval]
    exact normalizeL_canonical p ds' hp hne' hdig'

/-- One further pass fixes any output of the upper-casing branch: a string
of the form `tok ++ rest` with `tok` in `['GSE', 'NCT', 'PMC']`. -/
theorem pass_on_case_token (p rest : List Char) (hp : ∀ c ∈ p, c.isAlpha = true)
    (hmem : p ∈ casePfxs)
    (hrest : ∀ c, rest.getLast? = some c → c.isWhitespace = false) :
    normalizeL (normalizeL (p ++ rest) p) p = normalizeL (p ++ rest) p := by
  have hpne : p ≠ [] := casePfxs_ne_nil hmem
  have hstrip1 : stripWs (p ++ rest) = p ++ rest := stripWs_token_append hp hpne hrest
  rcases h5 : searchDD p (p ++ rest) with _ | ds
  case some =>
    have hval : normalizeL (p ++ rest) p = p ++ ':' :: ds := by
      unfold normalizeL
      rw [hstrip1]
      unfold normCore
      rw [h5]
    rcases searchDD_digits h5 with ⟨hne, hdig⟩
    rw [hval]
    exact normalizeL_canonical p ds hp hne hdig
  case none =>
  have h6 : (if p = uniPKB ∧ containsSub uniTaxNeedle (p ++ rest)
      then searchLD taxSeg (p ++ rest) else none) = none :=
    if_neg (fun hc => casePfxs_ne_uni hmem hc.1)
  rcases h7 : (if containsSub ncbiT (p ++ rest) ∨ p = uniPKB
      then searchDD ncbiT (p ++ rest) else none) with _ | ds7
  case some =>
    have hND : searchDD ncbiT (p ++ rest) = some ds7 := by
      by_cases hcond : containsSub ncbiT (p ++ rest) = true ∨ p = uniPKB
      · rwa [if_pos hcond] at h7
      · rw [if_neg hcond] at h7
        cases h7
    rcases searchDD_digits hND with ⟨hne7, hdig7⟩
    have hval : normalizeL (p ++ rest) p = ncbiT ++ ':' :: ds7 := by
      unfold normalizeL
      rw [hstrip1]
      unfold normCore
      rw [h5, h6, h7]
    rw [hval]
    rcases h8 : searchDD p (ncbiT ++ ':' :: ds7) with _ | ds8
    · exact normalizeL_ncbi_fixed hne7 hdig7 h8
    · exfalso
      rcases searchDD_on_ncbi_canonical hdig7 h8 with ⟨a, ha⟩
      exact casePfxs_not_ncbi_suffix hmem ha
  case none =>
    have hlow : isPfxB (lowerL p) (lowerL (p ++ rest)) = true := by
      unfold lowerL
      rw [List.map_append]
      show (dropPfx? (p.map Char.toLower) (p.map Char.toLower ++ rest.map Char.toLower)).isSome = true
      rw [dropPfx?_append]
      rfl
    have hval : normalizeL (p ++ rest) p = p ++ rest := by
      unfold normalizeL
      rw [hstrip1]
      unfold normCore
      rw [h5, h6, h7]
      rw [if_pos hmem, if_pos hlow, List.drop_left]
    rw [hval]
    exact hval

/-- One further pass fixes any output of the colon-splitting branch: a string
of the form `tok ++ ':' ++ post` with `tok` in the colon-branch token list. -/
theorem pass_on_colon_token (p post : List Char) (hp : ∀ c ∈ p, c.isAlpha = true)
    (hmem : p ∈ colonPfxs)
    (hlast : ∀ c, (':' :: post : List Char).getLast? = some c → c.isWhitespace = false) :
    normalizeL (normalizeL (p ++ ':' :: post) p) p = normalizeL (p ++ ':' :: post) p := by
  have hpne : p ≠ [] := colonPfxs_ne_nil hmem
  have hstrip1 : stripWs (p ++ ':' :: post) = p ++ ':' :: post :=
    stripWs_token_append hp hpne hlast
  rcases h5 : searchDD p (p ++ ':' :: post) with _ | ds
  case some =>
    have hval : normalizeL (p ++ ':' :: post) p = p ++ ':' :: ds := by
      unfold normalizeL
      rw [hstrip1]
      unfold normCore
      rw [h5]
    rcases searchDD_digits h5 with ⟨hne, hdig⟩
    rw [hval]
    exact normalizeL_canonical p ds hp hne hdig
  case none =>
  rcases h6v : (if p = uniPKB ∧ containsSub uniTaxNeedle (p ++ ':' :: post)
      then searchLD taxSeg (p ++ ':' :: post) else none) with _ | ds6
  case some =>
    have hcond : p = uniPKB ∧ containsSub uniTaxNeedle (p ++ ':' :: post) = true := by
      by_contra hc
      rw [if_neg hc] at h6v
      cases h6v
    have hLD : searchLD taxSeg (p ++ ':' :: post) = some ds6 := by
      rwa [if_pos hcond] at h6v
    rcases searchLD_sound hLD with ⟨_, hne6, hdig6⟩
    have hval : normalizeL (p ++ ':' :: post) p = ncbiT ++ ':' :: ds6 := by
      unfold normalizeL
      rw [hstrip1]
      unfold normCore
      rw [h5, h6v]
    rw [hval]
    rcases h8 : searchDD p (ncbiT ++ ':' :: ds6) with _ | ds8
    · exact normalizeL_ncbi_fixed hne6 hdig6 h8
    · exfalso
      rcases searchDD_on_ncbi_canonical hdig6 h8 with ⟨a, ha⟩
      have hdrop := eq_drop_of_ncbi_suffix ha
      rw [hcond.1] at hdrop
      exact absurd hdrop (by decide)
  case none =>
  rcases h7v : (if containsSub ncbiT (p ++ ':' :: post) ∨ p = uniPKB
      then searchDD ncbiT (p ++ ':' :: post) else none) with _ | ds7
  case some =>
    have hND : searchDD ncbiT (p ++ ':' :: post) = some ds7 := by
      by_cases hcond : containsSub ncbiT (p ++ ':' :: post) = true ∨ p = uniPKB
      · rwa [if_pos hcond] at h7v
      · rw [if_neg hcond] at h7v
        cases h7v
    rcases searchDD_digits hND with ⟨hne7, hdig7⟩
    have hval : normalizeL (p ++ ':' :: post) p = ncbiT ++ ':' :: ds7 := by
      unfold normalizeL
      rw [hstrip1]
      unfold normCore
      rw [h5, h6v, h7v]
    rw [hval]
    rcases h8 : searchDD p (ncbiT ++ ':' :: ds7) with _ | ds8
    · exact normalizeL_ncbi_fixed hne7 hdig7 h8
    · have hpn : p = ncbiT := by
        rcases searchDD_on_ncbi_canonical hdig7 h8 with ⟨a, ha⟩
        exact colonPfxs_ncbi_suffix hmem ha
      subst hpn
      exact normalizeL_canonical ncbiT ds7 hp hne7 hdig7
  case none =>
    have hhttp : isPfxB httpL (p ++ ':' :: post) = false := by
      rcases colonPfxs_head hmem with ⟨c0, p', hpeq, hc0⟩
      rw [hpeq, List.cons_append]
      exact isPfxB_http_head hc0
    have htw := @takeWhile_notColon_append p post
      (fun c hc => alpha_notColon (hp c hc))
    have hmemcolon : ':' ∈ p ++ ':' :: post :=
      List.mem_append.mpr (Or.inr (List.mem_cons_self _ _))
    have hc1 : ¬ ((¬ ':' ∈ p ++ ':' :: post) ∧
        containsSub p (p ++ ':' :: post) = true) := fun hcc => hcc.1 hmemcolon
    have hc2 : (':' ∈ p ++ ':' :: post) ∧
        ¬ (isPfxB httpL (p ++ ':' :: post) = true) :=
      ⟨hmemcolon, by rw [hhttp]; simp⟩
    have hval : normalizeL (p ++ ':' :: post) p = p ++ ':' :: post := by
      unfold normalizeL
      rw [hstrip1]
      unfold normCore
      rw [h5, h6v, h7v]
      rw [if_neg (colonPfxs_not_case hmem), if_pos hmem]
      rw [if_neg hc1, if_pos hc2, htw.1, htw.2, if_pos rfl]
      rfl
    rw [hval]
    exact hval

/-- Two normalization passes reach a fixed point, character-list form: the
third application returns the second application's output unchanged, for
every value and every letters-only join-key token. -/
theorem normalizeL_stabilizes (v p : List Char) (hp : ∀ c ∈ p, c.isAlpha = true) :
    normalizeL (normalizeL (normalizeL v p) p) p = normalizeL (normalizeL v p) p := by
  have hdef : normCore (stripWs v) p = stripWs v →
      normalizeL (normalizeL (normalizeL v p) p) p = normalizeL (normalizeL v p) p := by
    intro hw1
    have h1' : normalizeL v p = stripWs v := hw1
    have hfix : normalizeL (stripWs v) p = stripWs v := by
      show normCore (stripWs (stripWs v)) p = stripWs v
      rw [stripWs_idem]
      exact hw1
    rw [h1', hfix]
    exact hfix
  rcases h1 : searchDD p (stripWs v) with _ | ds
  case some =>
    have h1' : normalizeL v p = p ++ ':' :: ds := by
      show normCore (stripWs v) p = _
      unfold normCore
      rw [h1]
    rcases searchDD_digits h1 with ⟨hne, hdig⟩
    have hA := normalizeL_canonical p ds hp hne hdig
    rw [h1', hA]
    exact hA
  case none =>
  rcases h2v : (if p = uniPKB ∧ containsSub uniTaxNeedle (stripWs v) = true
      then searchLD taxSeg (stripWs v) else none) with _ | ds2
  case some =>
    have hLD : searchLD taxSeg (stripWs v) = some ds2 := by
      by_cases hcond : p = uniPKB ∧ containsSub uniTaxNeedle (stripWs v) = true
      · rwa [if_pos hcond] at h2v
      · rw [if_neg hcond] at h2v
        cases h2v
    rcases searchLD_sound hLD with ⟨_, hne2, hdig2⟩
    have h1' : normalizeL v p = ncbiT ++ ':' :: ds2 := by
      show normCore (stripWs v) p = _
      unfold normCore
      rw [h1, h2v]
    rw [h1']
    exact pass_on_ncbi p ds2 hp hne2 hdig2
  case none =>
  rcases h3v : (if containsSub ncbiT (stripWs v) = true ∨ p = uniPKB
      then searchDD ncbiT (stripWs v) else none) with _ | ds3
  case some =>
    have hND : searchDD ncbiT (stripWs v) = some ds3 := by
      by_cases hcond : containsSub ncbiT (stripWs v) = true ∨ p = uniPKB
      · rwa [if_pos hcond] at h3v
      · rw [if_neg hcond] at h3v
        cases h3v
    rcases searchDD_digits hND with ⟨hne3, hdig3⟩
    have h1' : normalizeL v p = ncbiT ++ ':' :: ds3 := by
      show normCore (stripWs v) p = _
      unfold normCore
      rw [h1, h2v, h3v]
    rw [h1']
    exact pass_on_ncbi p ds3 hp hne3 hdig3
  case none =>
  by_cases hcase : p ∈ casePfxs
  · by_cases hlow : isPfxB (lowerL p) (lowerL (stripWs v)) = true
    · have h1' : normalizeL v p = p ++ (stripWs v).drop p.length := by
        show normCore (stripWs v) p = _
        unfold normCore
        rw [h1, h2v, h3v]
        rw [if_pos hcase, if_pos hlow]
      rw [h1']
      apply pass_on_case_token p _ hp hcase
      intro c hc
      have hrne : (stripWs v).drop p.length ≠ [] := by
        intro he
        rw [he] at hc
        cases hc
      rw [getLast?_drop_eq hrne] at hc
      exact stripWs_getLast_not_ws hc
    · apply hdef
      unfold normCore
      rw [h1, h2v, h3v]
      rw [if_pos hcase, if_neg hlow]
  · by_cases hcolon : p ∈ colonPfxs
    · by_cases hc5a : (¬ ':' ∈ stripWs v) ∧ containsSub p (stripWs v) = true
      · rcases h5av : searchOptDD p (stripWs v) with _ | ds5
        · apply hdef
          unfold normCore
          rw [h1, h2v, h3v]
          rw [if_neg hcase, if_pos hcolon, if_pos hc5a, h5av]
        · have h1' : normalizeL v p = p ++ ':' :: ds5 := by
            show normCore (stripWs v) p = _
            unfold normCore
            rw [h1, h2v, h3v, if_neg hcase, if_pos hcolon, if_pos hc5a, h5av]
          rcases searchOptDD_digits h5av with ⟨hne5, hdig5⟩
          have hA := normalizeL_canonical p ds5 hp hne5 hdig5
          rw [h1', hA]
          exact hA
      · by_cases hc5b : (':' ∈ stripWs v) ∧ ¬ (isPfxB httpL (stripWs v) = true)
        · by_cases hupper : upperL ((stripWs v).takeWhile notColon) = upperL p
          · rcases colon_split hc5b.1 with ⟨post, hdropW, hsplitW⟩
            have h1' : normalizeL v p = p ++ ':' :: post := by
              show normCore (stripWs v) p = _
              unfold normCore
              rw [h1, h2v, h3v, if_neg hcase, if_pos hcolon, if_neg hc5a,
                if_pos hc5b, if_pos hupper, hdropW]
              rfl
            rw [h1']
            apply pass_on_colon_token p post hp hcolon
            have hlast_eq : ((':' :: post : List Char)).getLast? = (stripWs v).getLast? := by
              conv_rhs => rw [hsplitW]
              exact (List.getLast?_append_of_ne_nil _ (by simp)).symm
            intro c hc
            rw [hlast_eq] at hc
            exact stripWs_getLast_not_ws hc
          · apply hdef
            unfold normCore
            rw [h1, h2v, h3v, if_neg hcase, if_pos hcolon, if_neg hc5a,
              if_pos hc5b, if_neg hupper]
        · apply hdef
          unfold normCore
          rw [h1, h2v, h3v, if_neg hcase, if_pos hcolon, if_neg hc5a, if_neg hc5b]
    · apply hdef
      unfold normCore
      rw [h1, h2v, h3v, if_neg hcase, if_neg hcolon]

/-! ## Claim C2: normalization idempotence -/

/-- Claim C2 counterexample: normalization is not idempotent.  The raw value
`"mondo:1abc"` against token `MONDO` is case-fixed to `"MONDO:1abc"` by the
colon-splitting rule; a second application now matches the embedded
`MONDO[:_](\d+)` rule and truncates to `"MONDO:1"`. -/
theorem normalize_not_idempotent_cex :
    normalize_join_value (normalize_join_value "mondo:1abc" "MONDO") "MONDO" ≠
      normalize_join_value "mondo:1abc" "MONDO" := by decide

/-- Claim C2 amended: one application of `normalize_join_value` is not
idempotent (the case-fixing rules can expose an embedded-identifier match
that a second application then truncates), but two applications reach a
fixed point: for every raw value and every join-key token consisting of
ASCII letters (as all tokens handled by the code do), the third application
returns the second application's output unchanged. -/
theorem normalize_stabilizes_after_two (v p : String)
    (hp : ∀ c ∈ p.data, c.isAlpha = true) :
    normalize_join_value (normalize_join_value (normalize_join_value v p) p) p =
      normalize_join_value (normalize_join_value v p) p :=
  congrArg String.mk (normalizeL_stabilizes v.data p.data hp)

/-- Witness for the C2 amended theorem at the counterexample's own input. -/
theorem normalize_stabilizes_after_two_witness :
    normalize_join_value (normalize_join_value
        (normalize_join_value "mondo:1abc" "MONDO") "MONDO") "MONDO" =
      normalize_join_value (normalize_join_value "mondo:1abc" "MONDO") "MONDO" :=
  normalize_stabilizes_after_two "mondo:1abc" "MONDO" (by decide)
